import Mathlib

/-!
Verification of the PyJAS JSON:API validating builder.

This file gives a shallow embedding of the validation engine of the PyJAS
repository and proves (or refutes) the claims of its natural-language
specification.  Two module families are embedded:

* `PyJAS.Builder` — the pydantic models of `pyjas/v1_1/jsonapi_builder.py`
  (`validate_member_name`, `ResourceIdentifierObject`, `RelationshipObject`,
  `ResourceObject`, `JSONAPIObject`, `Document` and its reachability
  traversal `_traverse_relationships`).
* `PyJAS.Classes` — the hand-written classes of `pyjas/v1_1/classes/`
  (`JsonAPIRelationshipsObject`, `JsonAPIDocument` with its
  `to_dict`/`from_json` serialization pair, and the member-name helpers of
  `pyjas/core/util.py` they rely on).

Python dynamic values are modelled by a small universal type; Python
truthiness (`bool(x)`) is modelled explicitly wherever the source uses it.
-/

namespace PyJAS

instance exceptDecidableEq {ε α : Type} [DecidableEq ε] [DecidableEq α] :
    DecidableEq (Except ε α)
  | .ok a, .ok b =>
    if h : a = b then .isTrue (by rw [h])
    else .isFalse (fun hh => h (Except.ok.inj hh))
  | .ok _, .error _ => .isFalse (fun hh => Except.noConfusion hh)
  | .error _, .ok _ => .isFalse (fun hh => Except.noConfusion hh)
  | .error e, .error f =>
    if h : e = f then .isTrue (by rw [h])
    else .isFalse (fun hh => h (Except.error.inj hh))

/-- A dynamic Python value, used for `meta` dictionaries, attribute values,
error-object entries and extension-member values, whose contents the
validators never inspect (only truthiness and `is None` tests). -/
inductive PyVal where
  | none
  | str (s : String)
  | int (n : Int)
  | bool (b : Bool)
  | list (xs : List PyVal)
  | dict (kvs : List (String × PyVal))

namespace Builder

/-! ### `validate_member_name` (jsonapi_builder.py lines 22-72)

The Python function checks, in order: the name is a string (types make this
vacuous here), it is non-empty, it matches one of three regex shapes
(core / `@`-member / `namespace:member` extension), and finally that no
character of the name lies in the `reserved_characters` set.

That set is built by `set('+,.,[,],!,",#,,$,%,&,\',(,),*,/,:,;,<,=,>,?,\\,^,`,{,|,},~,DEL')`,
i.e. the set of *characters* of that comma-separated string: all the listed
punctuation, the comma itself, and — because `'DEL'` is spelled out as three
letters — the capital letters `D`, `E` and `L`. -/

/-- Errors raised by the pydantic-model validators of `jsonapi_builder.py`.
Each constructor corresponds to one `raise` site; payloads record the data
interpolated into the Python error message. -/
inductive Err where
  | emptyMemberName
  | invalidMemberName (name : String)
  | reservedMemberChar (name : String) (c : Char)
  | rioMissingIdentity
  | rioIdNotString
  | rioLidNotString
  | linkRelNotAlnum
  | linkHreflangEmpty
  | linkHreflangInvalid (tag : String)
  | relEmpty
  | relInvalidLinkKey (k : String)
  | relInvalidLinkUri (k : String)
  | roTypeNotString
  | roIdNotString
  | roLidNotString
  | roMissingIdentity
  | roReservedConflict (keys : Finset String)
  | roAttrRelConflict (keys : Finset String)
  | roReservedAttr (keys : Finset String)
  | roForeignKeyAttr (keys : Finset String)
  | roReservedRel (keys : Finset String)
  | roInvalidLinkKey (k : String)
  | roInvalidLinkUri (k : String)
  | jsonapiBadVersion (v : String)
  | docDataErrorsConflict
  | docEmpty
  | docIncludedWithoutData
  | docDuplicateIncluded (type_ : String) (id_ lid : Option String)
  | docUnreachableIncluded (keys : Finset (String × Option String))
  | docInvalidLinkKey (k : String)
  | docInvalidLinkUri (k : String)
deriving DecidableEq

/-- Characters matched by `[A-Za-z0-9\u0080-￿]` in the member-name
regexes: ASCII alphanumerics plus code points U+0080..U+FFFF. -/
def coreChar (c : Char) : Bool :=
  c.isAlphanum || (0x80 ≤ c.toNat && c.toNat ≤ 0xFFFF)

/-- Characters allowed in the interior of a member name:
`[A-Za-z0-9\u0080-￿\-_\ ]`. -/
def midChar (c : Char) : Bool :=
  coreChar c || c = '-' || c = '_' || c = ' '

/-- Matches the suffix of a member-name body after its first character:
`(?:[mid]*[core])?` — empty, or interior characters ending in a core
character. -/
def bodyRestOk : List Char → Bool
  | [] => true
  | [c] => coreChar c
  | c :: cs => midChar c && bodyRestOk cs

/-- Matches `[core](?:[mid]*[core])?`, the body shared by the three
member-name regexes (`core_pattern` without anchors). -/
def bodyOk : List Char → Bool
  | [] => false
  | c :: cs => coreChar c && bodyRestOk cs

/-- Matches `at_member_pattern`: `@` followed by a core body. -/
def atOk : List Char → Bool
  | c :: cs => c = '@' && bodyOk cs
  | [] => false

/-- Matches `extension_pattern`: `[core]+ : body`.  Since core characters
exclude `:`, a match must split at the first colon. -/
def extOk (l : List Char) : Bool :=
  match l.span (fun c => !(c = ':')) with
  | (ns, c :: body) => c = ':' && !ns.isEmpty && ns.all coreChar && bodyOk body
  | (_, []) => false

/-- The `reserved_characters` set of `validate_member_name`, exactly as the
Python `set(...)` call produces it: the listed punctuation, the comma used as
separator, and the letters `D`, `E`, `L` of the `'DEL'` mnemonic.
(`Char.ofNat` is used for backquote and braces: 96 = backquote,
123/125 = braces, 39 = apostrophe, 92 = backslash.) -/
def reservedMemberChars : List Char :=
  ['+', ',', '.', '[', ']', '!', '"', '#', '$', '%', '&', Char.ofNat 39,
   '(', ')', '*', '/', ':', ';', '<', '=', '>', '?', Char.ofNat 92, '^',
   Char.ofNat 96, Char.ofNat 123, '|', Char.ofNat 125, '~', 'D', 'E', 'L']

/-- `validate_member_name(name)`: empty check, then the three regex shapes,
then the reserved-character scan (first offending character wins). -/
def validate_member_name (name : String) : Except Err Unit :=
  let l := name.toList
  if l.isEmpty then .error .emptyMemberName
  else if bodyOk l || atOk l || extOk l then
    match l.find? (fun c => reservedMemberChars.contains c) with
    | some c => .error (.reservedMemberChar name c)
    | none => .ok ()
  else .error (.invalidMemberName name)

/-! ### `is_valid_uri` (helper.py)

`is_valid_uri` parses the string with `urllib.parse.urlparse` and accepts it
when `(scheme and netloc) or (scheme and path) or path` holds.  The parsing
below follows `urlparse`: strip the fragment, split a leading
`scheme:` (first character alphabetic, rest alphanumeric or `+`/`-`/`.`),
take a `//netloc` up to the next `/`, `?` or `#`, and strip the query; the
remainder is the path. -/

/-- Characters permitted after the first character of a URL scheme. -/
def schemeChar (c : Char) : Bool :=
  c.isAlphanum || c = '+' || c = '-' || c = '.'

/-- The `(scheme, rest)` split performed by `urlparse`. -/
def splitScheme (l : List Char) : List Char × List Char :=
  match l.span (fun c => !(c = ':')) with
  | (pre, c :: post) =>
    if c = ':' then
      match pre with
      | p :: ps => if p.isAlpha && ps.all schemeChar then (pre, post) else ([], l)
      | [] => ([], l)
    else ([], l)
  | (_, []) => ([], l)

/-- The `(netloc, rest)` split performed by `urlparse`: a netloc is present
only after a literal `//`. -/
def splitNetloc (l : List Char) : List Char × List Char :=
  match l with
  | '/' :: '/' :: r => r.span (fun c => !(c = '/') && !(c = '?') && !(c = '#'))
  | _ => ([], l)

/-- `is_valid_uri(url)` of helper.py. -/
def is_valid_uri (url : String) : Bool :=
  let noFrag := url.toList.takeWhile (fun c => !(c = '#'))
  let (scheme, rest) := splitScheme noFrag
  let (netloc, rest2) := splitNetloc rest
  let path := rest2.takeWhile (fun c => !(c = '?'))
  (!scheme.isEmpty && !netloc.isEmpty) ||
    (!scheme.isEmpty && !path.isEmpty) || !path.isEmpty

/-! ### `LinkObject` (jsonapi_builder.py lines 127-204) -/

/-- The dynamic `str | list[str]` type of the `hreflang` field. -/
inductive Hreflang where
  | single (s : String)
  | many (tags : List String)

/-- `LinkObject` field data.  `href`/`describedby` are pydantic `HttpUrl`
fields whose parsing is library behaviour outside this repository; the
validator below only models `validate_link_object`. -/
structure LinkObject where
  href : String
  rel : Option String := Option.none
  describedby : Option String := Option.none
  title : Option String := Option.none
  type_ : Option String := Option.none
  hreflang : Option Hreflang := Option.none
  meta : Option (List (String × PyVal)) := Option.none

/-- The `_is_valid_language_tag` regex
`^[a-zA-Z]\x7b2,3\x7d(-[a-zA-Z]\x7b2,4\x7d)?$`. -/
def languageTagOk (s : String) : Bool :=
  match s.toList.span (fun c => !(c = '-')) with
  | (a, []) => a.all Char.isAlpha && decide (2 ≤ a.length) && decide (a.length ≤ 3)
  | (a, _ :: b) => a.all Char.isAlpha && decide (2 ≤ a.length) && decide (a.length ≤ 3)
      && b.all Char.isAlpha && decide (2 ≤ b.length) && decide (b.length ≤ 4)

/-- Python `str.isalnum()` (restricted to its ASCII behaviour, the only
case the claims exercise). -/
def strIsAlnum (s : String) : Bool :=
  !s.isEmpty && s.toList.all Char.isAlphanum

/-- The `rel` half of `validate_link_object`: a truthy `rel` must be
alphanumeric. -/
def linkRelCheck (lo : LinkObject) : Except Err Unit :=
  match lo.rel with
  | Option.some s =>
    if !s.isEmpty && !strIsAlnum s then .error .linkRelNotAlnum else .ok ()
  | Option.none => .ok ()

/-- The `hreflang` half of `validate_link_object`: non-empty, and every tag
RFC-5646-shaped (first offending tag wins). -/
def linkHreflangCheck (lo : LinkObject) : Except Err Unit :=
  match lo.hreflang with
  | Option.none => .ok ()
  | Option.some (.single s) =>
    if s.isEmpty then .error .linkHreflangEmpty
    else if !languageTagOk s then .error (.linkHreflangInvalid s)
    else .ok ()
  | Option.some (.many tags) =>
    if tags.isEmpty then .error .linkHreflangEmpty
    else
      match tags.find? (fun t => !languageTagOk t) with
      | Option.some t => .error (.linkHreflangInvalid t)
      | Option.none => .ok ()

/-- `validate_link_object`, in source order. -/
def validateLinkObject (lo : LinkObject) : Except Err Unit := do
  linkRelCheck lo
  linkHreflangCheck lo

/-- `LinkValue = str | LinkObject | None`. -/
inductive LinkValue where
  | null
  | uri (s : String)
  | obj (lo : LinkObject)

/-- A Python links dictionary (insertion-ordered). -/
def LinksMap : Type := List (String × LinkValue)

/-! ### `ResourceIdentifierObject` (jsonapi_builder.py lines 78-124) -/

/-- Python truthiness of an `Optional[str]` field (pydantic `NonEmptyStr`
fields are non-empty when present, but the model keeps the general test). -/
def truthyStr : Option String → Bool
  | Option.none => false
  | Option.some s => !s.isEmpty

/-- Python truthiness of an optional dictionary field. -/
def truthyDict {α : Type} : Option (List (String × α)) → Bool
  | Option.none => false
  | Option.some l => !l.isEmpty

/-- `ResourceIdentifierObject` fields (`type`, `id`, `lid`, `meta`). -/
structure ResourceIdentifierObject where
  type_ : String
  id_ : Option String := Option.none
  lid : Option String := Option.none
  meta : Option (List (String × PyVal)) := Option.none

/-- `validate_id_or_lid`: requires a truthy `id` or `lid`.  The remaining
Python conditions (`not isinstance(self.type_, str) and not bool(self.type_)`
for `type`, and `x is not None and isinstance(x, str) and not bool(x)` for
`id`/`lid`) are modelled exactly: the `type` condition is unsatisfiable for a
string and the `id`/`lid` conditions fire only on empty strings. -/
def validate_id_or_lid (r : ResourceIdentifierObject) : Except Err Unit :=
  if !truthyStr r.id_ && !truthyStr r.lid then .error .rioMissingIdentity
  else if r.id_ = Option.some "" then .error .rioIdNotString
  else if r.lid = Option.some "" then .error .rioLidNotString
  else .ok ()

/-! ### `RelationshipObject` (jsonapi_builder.py lines 220-281) -/

/-- Resource linkage: a single identifier or an ordered list of them. -/
inductive RelData where
  | one (ri : ResourceIdentifierObject)
  | many (ris : List ResourceIdentifierObject)

/-- Python truthiness of the `data` field (`None` and the empty list are
falsy, a single identifier object is always truthy). -/
def truthyRelData : Option RelData → Bool
  | Option.none => false
  | Option.some (.one _) => true
  | Option.some (.many l) => !l.isEmpty

/-- The identifiers contained in a linkage value. -/
def relDataIdents : Option RelData → List ResourceIdentifierObject
  | Option.none => []
  | Option.some (.one ri) => [ri]
  | Option.some (.many l) => l

/-- `RelationshipObject` fields; `extensionMembers` holds the extra members
admitted by `model_config = ConfigDict(extra='allow')`. -/
structure RelationshipObject where
  links : Option LinksMap := Option.none
  data : Option RelData := Option.none
  meta : Option (List (String × PyVal)) := Option.none
  extensionMembers : List (String × PyVal) := []

/-- Python truthiness of an optional links dictionary. -/
def truthyLinks : Option LinksMap → Bool
  | Option.none => false
  | Option.some l => !l.isEmpty

/-- Sequences a validator over a list, first failure wins (the shape of
every `for`-loop of the Python validators). -/
def allOk {α : Type} (f : α → Except Err Unit) : List α → Except Err Unit
  | [] => .ok ()
  | x :: xs => do f x; allOk f xs

/-- One iteration of a links-dictionary loop: the key must be allowed,
string values must be URI-valid, and `LinkObject` values are re-validated
when the loop does so (`revalidate`; the resource and document loops
re-run `LinkObject` validation, the relationship loop does not). -/
def linkPairCheck (allowed : List String) (mkKeyErr mkUriErr : String → Err)
    (revalidate : Bool) (p : String × LinkValue) : Except Err Unit :=
  if !allowed.contains p.1 then .error (mkKeyErr p.1)
  else
    match p.2 with
    | .null => .ok ()
    | .uri s => if !is_valid_uri s then .error (mkUriErr p.1) else .ok ()
    | .obj lo => if revalidate then validateLinkObject lo else .ok ()

/-- Checks every `(key, value)` pair of a links dictionary; first offending
pair wins.  Shared by the relationship, resource and document validators,
which differ only in the allowed keys and the error constructors. -/
def checkLinksMap (allowed : List String) (mkKeyErr mkUriErr : String → Err)
    (revalidate : Bool) (l : List (String × LinkValue)) : Except Err Unit :=
  allOk (linkPairCheck allowed mkKeyErr mkUriErr revalidate) l

/-- Validates a list of extension-member names with `validate_member_name`;
first offending name wins. -/
def checkExtNames : List (String × PyVal) → Except Err Unit
  | [] => .ok ()
  | (n, _) :: rest =>
    match validate_member_name n with
    | .error e => .error e
    | .ok () => checkExtNames rest

/-- `validate_relationship`: emptiness (extension members are *not*
consulted), then the links checks, then extension-member names.  The
`data` isinstance checks are vacuous in the typed model. -/
def validate_relationship (rel : RelationshipObject) : Except Err Unit :=
  if !truthyLinks rel.links && !truthyRelData rel.data && !truthyDict rel.meta then
    .error .relEmpty
  else
    let linksCheck :=
      if truthyLinks rel.links then
        checkLinksMap ["self", "related", "describedby"]
          Err.relInvalidLinkKey Err.relInvalidLinkUri false
          ((rel.links).getD [])
      else .ok ()
    match linksCheck with
    | .error e => .error e
    | .ok () => checkExtNames rel.extensionMembers

/-! ### `ResourceObject` (jsonapi_builder.py lines 284-457) -/

/-- `ResourceObject` fields.  `attributes` and `relationships` are
insertion-ordered dictionaries. -/
structure ResourceObject where
  type_ : String
  id_ : Option String := Option.none
  lid : Option String := Option.none
  attributes : Option (List (String × PyVal)) := Option.none
  relationships : Option (List (String × RelationshipObject)) := Option.none
  links : Option LinksMap := Option.none
  meta : Option (List (String × PyVal)) := Option.none

/-- The relationships dictionary of a resource (empty when the field is
`None`). -/
def relsOf (r : ResourceObject) : List (String × RelationshipObject) :=
  (r.relationships).getD []

/-- The Python `set(d.keys())` of an insertion-ordered dictionary. -/
def keysOf {α : Type} (l : List (String × α)) : Finset String :=
  (l.map Prod.fst).toFinset

/-- The reserved member keys `{'type', 'id', 'lid'}`. -/
def reservedKeys : Finset String := {"type", "id", "lid"}

/-- `'type' must be a string.`: fires when `type` is empty (the
non-string case is vacuous in the typed model). -/
def roTypeCheck (r : ResourceObject) : Except Err Unit :=
  if r.type_ = "" then .error .roTypeNotString else .ok ()

/-- The `'id' must be a string.` / `'lid' must be a string.` checks, which
fire exactly on present-but-empty strings. -/
def roIdStrCheck (r : ResourceObject) : Except Err Unit :=
  if r.id_ = Option.some "" then .error .roIdNotString
  else if r.lid = Option.some "" then .error .roLidNotString
  else .ok ()

/-- `ResourceObject must have either 'id' or 'lid'.` (truthiness-based). -/
def roIdentityCheck (r : ResourceObject) : Except Err Unit :=
  if !truthyStr r.id_ && !truthyStr r.lid then .error .roMissingIdentity
  else .ok ()

/-- The attribute/relationship key-conflict checks (run only when both
dictionaries are truthy): reserved names in the intersection first, then any
remaining intersection. -/
def roConflictCheck (r : ResourceObject) : Except Err Unit :=
  if truthyDict r.attributes && truthyDict r.relationships then
    let common := keysOf ((r.attributes).getD []) ∩ keysOf (relsOf r)
    if common ∩ reservedKeys ≠ ∅ then .error (.roReservedConflict (common ∩ reservedKeys))
    else if common ≠ ∅ then .error (.roAttrRelConflict common)
    else .ok ()
  else .ok ()

/-- Python `key.endswith('_id')`. -/
def endsWithUnderscoreId (k : String) : Bool :=
  match k.toList.reverse with
  | 'd' :: 'i' :: '_' :: _ => true
  | _ => false

/-- The attribute-key checks: no reserved names, and no foreign-key-shaped
names (ending in `_id`). -/
def roAttrCheck (r : ResourceObject) : Except Err Unit :=
  if truthyDict r.attributes then
    let attrKeys := keysOf ((r.attributes).getD [])
    if reservedKeys ∩ attrKeys ≠ ∅ then .error (.roReservedAttr (reservedKeys ∩ attrKeys))
    else
      let foreign := attrKeys.filter (fun k => endsWithUnderscoreId k)
      if foreign ≠ ∅ then .error (.roForeignKeyAttr foreign)
      else .ok ()
  else .ok ()

/-- The relationship-key check: no reserved names. -/
def roRelCheck (r : ResourceObject) : Except Err Unit :=
  if truthyDict r.relationships then
    let relKeys := keysOf (relsOf r)
    if reservedKeys ∩ relKeys ≠ ∅ then .error (.roReservedRel (reservedKeys ∩ relKeys))
    else .ok ()
  else .ok ()

/-- The resource-level links check (allowed keys include `pagination`;
`LinkObject` values are re-validated). -/
def roLinksCheck (r : ResourceObject) : Except Err Unit :=
  if truthyLinks r.links then
    checkLinksMap ["self", "related", "describedby", "pagination"]
      Err.roInvalidLinkKey Err.roInvalidLinkUri true ((r.links).getD [])
  else .ok ()

/-- `validate_resource_object`, in source order. -/
def validate_resource_object (r : ResourceObject) : Except Err Unit := do
  roTypeCheck r
  roIdStrCheck r
  roIdentityCheck r
  roConflictCheck r
  roAttrCheck r
  roRelCheck r
  roLinksCheck r

/-! ### `JSONAPIObject` and `Document` (jsonapi_builder.py lines 469-624) -/

/-- `JSONAPIObject` fields. -/
structure JSONAPIObject where
  version : String := "1.1"
  meta : Option (List (String × PyVal)) := Option.none

/-- The `must_have_correct_version` field validator
(`ALLOWED_JSONAPI_VERSIONS = ('1.0', '1.1')`). -/
def validateJSONAPI (j : JSONAPIObject) : Except Err Unit :=
  if j.version = "1.0" || j.version = "1.1" then .ok ()
  else .error (.jsonapiBadVersion j.version)

/-- One element of primary data: a full resource or a bare identifier. -/
inductive DataItem where
  | res (r : ResourceObject)
  | ident (ri : ResourceIdentifierObject)

/-- `PrimaryData = ResourceObject | ResourceIdentifierObject | list | None`.
A list may mix resources and identifiers (the document validator's
isinstance check accepts both in one list). -/
inductive PrimaryData where
  | null
  | single (x : DataItem)
  | list (xs : List DataItem)

/-- Whether `data is None`. -/
def PrimaryData.isNull : PrimaryData → Bool
  | .null => true
  | _ => false

/-- The list of nodes `_traverse_relationships` iterates over
(`resources = data if isinstance(data, list) else [data]`). -/
def PrimaryData.items : PrimaryData → List DataItem
  | .null => []
  | .single x => [x]
  | .list xs => xs

/-- The identity key `(type_, id_) if resource.id_ else (type_, lid)` used by
the duplicate check and the traversal. -/
def identKey (type_ : String) (id_ lid : Option String) : String × Option String :=
  if truthyStr id_ then (type_, id_) else (type_, lid)

/-- Identity key of a resource object. -/
def keyOfRes (r : ResourceObject) : String × Option String :=
  identKey r.type_ r.id_ r.lid

/-- Identity key of a resource identifier object. -/
def keyOfIdentObj (ri : ResourceIdentifierObject) : String × Option String :=
  identKey ri.type_ ri.id_ ri.lid

/-- Identity key of a primary-data node. -/
def keyOfItem : DataItem → String × Option String
  | .res r => keyOfRes r
  | .ident ri => keyOfIdentObj ri

/-- The two mutable sets threaded through `_traverse_relationships`. -/
structure Trav where
  visited : Finset (String × Option String)
  reachable : Finset (String × Option String)

/-- One node visit: `if identifier in visited: continue` else add the key to
both sets. -/
def visitKey (st : Trav) (k : String × Option String) : Trav :=
  if k ∈ st.visited then st
  else ⟨insert k st.visited, insert k st.reachable⟩

/-- Visiting a bare identifier: identifiers carry no relationships, so the
recursive call treats them as leaves. -/
def visitIdent (st : Trav) (ri : ResourceIdentifierObject) : Trav :=
  visitKey st (keyOfIdentObj ri)

/-- The `if rel.data:` branch: recurse into the linkage's identifiers. -/
def visitRel (st : Trav) (rel : RelationshipObject) : Trav :=
  if truthyRelData rel.data then (relDataIdents rel.data).foldl visitIdent st
  else st

/-- Visiting a resource node: skip if already visited, else record its key
and — when `resource.relationships` is truthy — walk each relationship's
linkage in insertion order. -/
def visitResource (st : Trav) (r : ResourceObject) : Trav :=
  if keyOfRes r ∈ st.visited then st
  else if truthyDict r.relationships then
    (relsOf r).foldl (fun s p => visitRel s p.2)
      ⟨insert (keyOfRes r) st.visited, insert (keyOfRes r) st.reachable⟩
  else ⟨insert (keyOfRes r) st.visited, insert (keyOfRes r) st.reachable⟩

/-- Visiting one primary-data node. -/
def visitItem (st : Trav) : DataItem → Trav
  | .res r => visitResource st r
  | .ident ri => visitIdent st ri

/-- Folding a node list through the traversal. -/
def visitItems (st : Trav) (xs : List DataItem) : Trav :=
  xs.foldl visitItem st

/-- `_traverse_relationships(self.data, reachable)` with fresh `visited` and
`reachable` sets. -/
def traverseData (d : PrimaryData) : Trav :=
  visitItems ⟨∅, ∅⟩ d.items

/-- The `reachable_resources` set computed in step 8 of
`validate_document`. -/
def reachableSet (d : PrimaryData) : Finset (String × Option String) :=
  (traverseData d).reachable

/-- `Document` fields; `extensionMembers` holds the extra top-level members
admitted by `ConfigDict(extra='allow')`. -/
structure Document where
  data : PrimaryData := .null
  errors : Option (List PyVal) := Option.none
  meta : Option (List (String × PyVal)) := Option.none
  jsonapi : Option JSONAPIObject := Option.none
  links : Option LinksMap := Option.none
  included : Option (List ResourceObject) := Option.none
  extensionMembers : List (String × PyVal) := []

/-- Step 1: `data` and `errors` must not coexist (`is not None` tests). -/
def docDataErrorsCheck (d : Document) : Except Err Unit :=
  if !d.data.isNull && (d.errors).isSome then .error .docDataErrorsConflict
  else .ok ()

/-- Step 2: at least one of `data`, `errors`, `meta`, `jsonapi` must be
present (`is None` tests; extension members are *not* consulted). -/
def docNonEmptyCheck (d : Document) : Except Err Unit :=
  if d.data.isNull && !(d.errors).isSome && !(d.meta).isSome && !(d.jsonapi).isSome then
    .error .docEmpty
  else .ok ()

/-- Step 3: `included` requires `data`. -/
def docIncludedRequiresData (d : Document) : Except Err Unit :=
  if d.data.isNull && (d.included).isSome then .error .docIncludedWithoutData
  else .ok ()

/-- Step 4: validate the extra top-level member names. -/
def docExtCheck (d : Document) : Except Err Unit :=
  checkExtNames d.extensionMembers

/-- Step 7: the duplicate scan over `included`, threading the
`seen_resources` set. -/
def dupCheckAux (seen : Finset (String × Option String)) :
    List ResourceObject → Except Err Unit
  | [] => .ok ()
  | r :: rest =>
    if keyOfRes r ∈ seen then .error (.docDuplicateIncluded r.type_ r.id_ r.lid)
    else dupCheckAux (insert (keyOfRes r) seen) rest

/-- The `included_resources` key set collected in step 8. -/
def includedKeys (inc : List ResourceObject) : Finset (String × Option String) :=
  (inc.map keyOfRes).toFinset

/-- Steps 6-8, which run only when `included is not None` (the isinstance
checks of steps 5 and 6 are vacuous in the typed model): duplicates, then
reachability of every included key, all unreachable keys reported in one
error. -/
def docIncludedBlock (d : Document) : Except Err Unit :=
  match d.included with
  | Option.none => .ok ()
  | Option.some inc => do
    dupCheckAux ∅ inc
    if includedKeys inc \ reachableSet d.data ≠ ∅ then
      .error (.docUnreachableIncluded (includedKeys inc \ reachableSet d.data))
    else .ok ()

/-- Step 9: the top-level links check. -/
def docLinksCheck (d : Document) : Except Err Unit :=
  if truthyLinks d.links then
    checkLinksMap ["self", "related", "describedby"]
      Err.docInvalidLinkKey Err.docInvalidLinkUri true ((d.links).getD [])
  else .ok ()

/-- `validate_document`, in source order. -/
def validate_document (d : Document) : Except Err Unit := do
  docDataErrorsCheck d
  docNonEmptyCheck d
  docIncludedRequiresData d
  docExtCheck d
  docIncludedBlock d
  docLinksCheck d

/-! ### Construction

pydantic validates nested models bottom-up while parsing fields, then runs
the document's own `model_validator`.  `construct_document` mirrors this:
every contained identifier, link object, relationship and resource must pass
its own validator before `validate_document` runs. -/

/-- The `LinkObject` values contained in a links dictionary. -/
def linkObjsOf (links : Option LinksMap) : List LinkObject :=
  (links.getD []).filterMap (fun p => match p.2 with
    | LinkValue.obj lo => Option.some lo
    | _ => Option.none)

/-- Construction-time validation of a relationship: its linkage identifiers
and link objects were validated at their own construction, then
`validate_relationship` runs. -/
def relPartsOk (rel : RelationshipObject) : Except Err Unit := do
  allOk validate_id_or_lid (relDataIdents rel.data)
  allOk validateLinkObject (linkObjsOf rel.links)
  validate_relationship rel

/-- Construction-time validation of a resource and everything it contains. -/
def roPartsOk (r : ResourceObject) : Except Err Unit := do
  allOk relPartsOk ((relsOf r).map Prod.snd)
  allOk validateLinkObject (linkObjsOf r.links)
  validate_resource_object r

/-- Construction-time validation of one primary-data node. -/
def itemPartsOk : DataItem → Except Err Unit
  | .res r => roPartsOk r
  | .ident ri => validate_id_or_lid ri

/-- Construction-time validation of everything a document contains. -/
def docPartsOk (d : Document) : Except Err Unit := do
  allOk itemPartsOk d.data.items
  allOk roPartsOk ((d.included).getD [])
  (match d.jsonapi with
   | Option.some j => validateJSONAPI j
   | Option.none => Except.ok ())
  allOk validateLinkObject (linkObjsOf d.links)

/-- Constructing a `Document`: nested validation, then `validate_document`. -/
def construct_document (d : Document) : Except Err Unit := do
  docPartsOk d
  validate_document d

/-! ### Document-surgery helpers for the reachability and cycle claims -/

/-- Inserting a key into both traversal sets. -/
def insertK (k : String × Option String) (st : Trav) : Trav :=
  ⟨insert k st.visited, insert k st.reachable⟩

/-- A bare identifier object referencing resource `R` (same type, id and
lid). -/
def identOfRes (R : ResourceObject) : ResourceIdentifierObject :=
  { type_ := R.type_, id_ := R.id_, lid := R.lid }

/-- A relationship whose linkage is the single identifier of `R`. -/
def relTo (R : ResourceObject) : RelationshipObject :=
  { data := Option.some (RelData.one (identOfRes R)) }

/-- `r0` with one more relationship `n ↦ relTo R` (a Python dict insertion
of a fresh key appends it in iteration order). -/
def extendRes (r0 : ResourceObject) (n : String) (R : ResourceObject) :
    ResourceObject :=
  { r0 with relationships := Option.some (relsOf r0 ++ [(n, relTo R)]) }

/-- The document `d` — whose primary data is the list `res r0 :: rest` —
with `r0` extended by a relationship named `n` pointing at `R`. -/
def extendDoc (d : Document) (r0 : ResourceObject) (rest : List DataItem)
    (n : String) (R : ResourceObject) : Document :=
  { d with data := .list (.res (extendRes r0 n R) :: rest) }

/-- An identifier with a concrete type and id. -/
def identTo (t i : String) : ResourceIdentifierObject :=
  { type_ := t, id_ := Option.some i }

/-- A relationship pointing at `(t, i)`. -/
def relToKey (t i : String) : RelationshipObject :=
  { data := Option.some (RelData.one (identTo t i)) }

/-- Resource `A` of the cycle scenario: type/id `(tA, iA)`, one relationship
`"b"` referencing `(tB, iB)`. -/
def cycleResA (tA iA tB iB : String) : ResourceObject :=
  { type_ := tA, id_ := Option.some iA,
    relationships := Option.some [("b", relToKey tB iB)] }

/-- Resource `B` of the cycle scenario: references `(tA, iA)` back. -/
def cycleResB (tA iA tB iB : String) : ResourceObject :=
  { type_ := tB, id_ := Option.some iB,
    relationships := Option.some [("a", relToKey tA iA)] }

/-- The cycle document: `A` is the primary data, both `A` and `B` are
included, and `A` and `B` reference each other. -/
def cycleDocument (tA iA tB iB : String) : Document :=
  { data := .list [.res (cycleResA tA iA tB iB)],
    included := Option.some [cycleResA tA iA tB iB, cycleResB tA iA tB iB] }

/-! ### The concrete scenario of the specification (its §8 examples) -/

/-- `Resource(type="articles", id="1", attributes={"title": "T"},
relationships={"author": …(people, 9)})`. -/
def specArticles : ResourceObject :=
  { type_ := "articles", id_ := Option.some "1",
    attributes := Option.some [("title", PyVal.str "T")],
    relationships := Option.some [("author", relToKey "people" "9")] }

/-- `Resource(type="people", id="9", attributes={"name": "Dan"})`. -/
def specPeople9 : ResourceObject :=
  { type_ := "people", id_ := Option.some "9",
    attributes := Option.some [("name", PyVal.str "Dan")] }

/-- `Resource(type="people", id="99", attributes={"name": "Unlinked"})`. -/
def specPeople99 : ResourceObject :=
  { type_ := "people", id_ := Option.some "99",
    attributes := Option.some [("name", PyVal.str "Unlinked")] }

/-- The failing document of the spec's concrete scenario: `people/99` is
included but unreferenced. -/
def specDocUnreachable : Document :=
  { data := .list [.res specArticles],
    included := Option.some [specPeople9, specPeople99] }

end Builder

namespace Classes

/-! ### `pyjas/core/util.py` member-name helpers -/

/-- Errors (`PyJASException` / `AttributeError` / `TypeError`) raised by the
hand-written classes of `pyjas/v1_1/classes/`. -/
inductive CErr where
  | typeNotSet
  | idLidExclusive
  | typeNotMemberName
  | relEmptyClasses
  | relSelfRelatedRequired
  | docTopLevelEmpty
  | docDataErrorsExactlyOne
  | cIncludedWithoutData
  | docLinksNotUrl
  | attributeNoToDict
  | notIterable
deriving DecidableEq

/-- Interior characters of `member_name_regex`: `[a-zA-Z0-9_ -]`. -/
def utilMidChar (c : Char) : Bool :=
  c.isAlphanum || c = '_' || c = ' ' || c = '-'

/-- The part of `member_name_regex` after the first character:
`[a-zA-Z0-9_ -]*[a-zA-Z0-9]` (so a valid name has at least two
characters). -/
def structureRestOk : List Char → Bool
  | [] => false
  | [c] => c.isAlphanum
  | c :: cs => utilMidChar c && structureRestOk cs

/-- `member_name_has_valid_structure`:
`^[a-zA-Z0-9][a-zA-Z0-9_ -]*[a-zA-Z0-9]$`. -/
def member_name_has_valid_structure (s : String) : Bool :=
  match s.toList with
  | [] => false
  | c :: rest => c.isAlphanum && structureRestOk rest

/-- Characters of `disallowed_member_name_regex` (reserved punctuation,
backslash, DEL and the C0 control range). -/
def utilDisallowedChar (c : Char) : Bool :=
  ['+', ',', '.', '[', ']', '!', '"', '#', '$', '%', '&', Char.ofNat 39,
   '(', ')', '*', '/', ':', ';', '<', '=', '>', '?', '^', Char.ofNat 96,
   Char.ofNat 123, '|', Char.ofNat 125, '~', Char.ofNat 92].contains c
    || decide (c.toNat ≤ 0x1F) || decide (c.toNat = 0x7F)

/-- `member_name_has_invalid_characters` (a `re.search`). -/
def member_name_has_invalid_characters (s : String) : Bool :=
  s.toList.any utilDisallowedChar

/-- `member_name_has_valid_commercial_at_symbol`: if `@` occurs, the name
must match `^@[^@]*$`. -/
def member_name_has_valid_commercial_at_symbol (s : String) : Bool :=
  if s.toList.contains '@' then
    match s.toList with
    | '@' :: rest => !rest.contains '@'
    | _ => false
  else true

/-- `is_valid_member_name` of `pyjas/core/util.py`. -/
def is_valid_member_name (s : String) : Bool :=
  member_name_has_valid_structure s
    && !member_name_has_invalid_characters s
    && member_name_has_valid_commercial_at_symbol s

/-! ### `is_valid_url` (core/util.py `url_regex`)

`^(https?://)([a-zA-Z0-9-._~:/?#@!$&'()*+,;=%]+)(\.[a-zA-Z]\x7b2,6\x7d)(:\d+)?(/[-a-zA-Z0-9()@:%_\+.~#?&//=]*)?$`.
The regex engine's backtracking over the middle group is modelled by an
existential over split positions. -/

/-- The domain-and-path character class of `url_regex`. -/
def urlBChar (c : Char) : Bool :=
  c.isAlphanum ||
    ['-', '.', '_', '~', ':', '/', '?', '#', '@', '!', '$', '&',
     Char.ofNat 39, '(', ')', '*', '+', ',', ';', '=', '%'].contains c

/-- The trailing-path character class of `url_regex`. -/
def urlCChar (c : Char) : Bool :=
  c.isAlphanum ||
    ['-', '(', ')', '@', ':', '%', '_', '+', '.', '~', '#', '?', '&', '/', '='].contains c

/-- The optional `(/...)$` tail. -/
def urlPathOk : List Char → Bool
  | [] => true
  | '/' :: r => r.all urlCChar
  | _ => false

/-- The optional `(:port)?(/...)?$` tail. -/
def urlTailOk (l : List Char) : Bool :=
  match l with
  | ':' :: r =>
    match r.span Char.isDigit with
    | (ds, rest) => !ds.isEmpty && urlPathOk rest
  | _ => urlPathOk l

/-- Matches `(B+)(\.[a-zA-Z]\x7b2,6\x7d)(tail)` against the characters after
the scheme, trying every split point for the backtracking `B+` group. -/
def urlAfterSchemeOk (l : List Char) : Bool :=
  (List.range (l.length + 1)).any (fun i =>
    let b := l.take i
    !b.isEmpty && b.all urlBChar &&
      (match l.drop i with
       | '.' :: r =>
         [2, 3, 4, 5, 6].any (fun n =>
           decide ((r.take n).length = n) && (r.take n).all Char.isAlpha
             && urlTailOk (r.drop n))
       | _ => false))

/-- `is_valid_url` of `pyjas/core/util.py`. -/
def is_valid_url (s : String) : Bool :=
  let l := s.toList
  if l.take 7 = ['h', 't', 't', 'p', ':', '/', '/'] then urlAfterSchemeOk (l.drop 7)
  else if l.take 8 = ['h', 't', 't', 'p', 's', ':', '/', '/'] then urlAfterSchemeOk (l.drop 8)
  else false

/-! ### Dynamic class values

The hand-written classes hold dynamically typed attributes.  `CVal` models
the values flowing through `JsonAPIDocument`: JSON primitives, lists,
dictionaries, and `JsonAPIResourceIdentifierObject` instances (the one
object kind the serialization claims exercise; a full resource object's
`to_dict` unconditionally dereferences `self.relationships.relationships`,
which no constructible value supplies, so it never serializes). -/

/-- A dynamic value of the classes module. -/
inductive CVal where
  | vnone
  | vstr (s : String)
  | vint (n : Int)
  | vlist (xs : List CVal)
  | vdict (kvs : List (String × CVal))
  | videntifier (type_ id_ lid_ meta : CVal)

/-- Python truthiness of a `CVal`. -/
def truthyC : CVal → Bool
  | .vnone => false
  | .vstr s => !s.isEmpty
  | .vint n => !(n = 0)
  | .vlist xs => !xs.isEmpty
  | .vdict kvs => !kvs.isEmpty
  | .videntifier _ _ _ _ => true

/-- Whether a value `is None`. -/
def isVNone : CVal → Bool
  | .vnone => true
  | _ => false

/-- Whether a value is JSON-serializable (`json.dumps` accepts it): no
identifier objects anywhere inside.  A `True` result makes the
`json.dumps`/`json.loads` string layer of `to_json`/`from_json` the identity
on the dictionary, so the dictionary-level round-trip below coincides with
the string-level one. -/
inductive HasIdentObj : CVal → Prop where
  | ident (t i l m : CVal) : HasIdentObj (.videntifier t i l m)
  | inList (x : CVal) (xs : List CVal) : x ∈ xs → HasIdentObj x → HasIdentObj (.vlist xs)
  | inDict (p : String × CVal) (kvs : List (String × CVal)) :
      p ∈ kvs → HasIdentObj p.2 → HasIdentObj (.vdict kvs)

/-! ### `JsonAPIRelationshipsObject` (classes/resources/relationship.py) -/

/-- `JsonAPITopLevelLinksObject` fields (string-valued links suffice for the
presence tests `_validate` performs). -/
structure CTopLinks where
  self_ : Option String := Option.none
  related : Option String := Option.none
  described_by : Option String := Option.none
  first : Option String := Option.none
  last : Option String := Option.none
  prev : Option String := Option.none
  next_ : Option String := Option.none

/-- `JsonAPIRelationshipsObject` fields: an optional links *object*, a
dynamic linkage value, a dynamic meta value, and the `**kwargs` extension
dictionary. -/
structure CRelationships where
  links : Option CTopLinks := Option.none
  data : CVal := .vnone
  meta : CVal := .vnone
  additional : List (String × CVal) := []

/-- `JsonAPIRelationshipsObject._validate`: emptiness across links, data,
meta *and* the additional members (`not self.links` is `links is None`
because a links object is always truthy), then the self/related rule. -/
def crelValidate (rel : CRelationships) : Except CErr Unit :=
  if rel.links.isNone && !truthyC rel.data && !truthyC rel.meta
      && rel.additional.isEmpty then
    .error .relEmptyClasses
  else
    match rel.links with
    | Option.some l =>
      if l.self_.isNone && l.related.isNone then .error .relSelfRelatedRequired
      else .ok ()
    | Option.none => .ok ()

/-! ### `JsonAPIDocument` (classes/documents.py) and its serialize /
deserialize pair `to_dict` (via `to_json`) and `from_json`. -/

/-- `JsonAPIDocument` fields, all dynamic, plus the `**kwargs` extension
dictionary. -/
structure CDoc where
  data : CVal := .vnone
  errors : CVal := .vnone
  meta : CVal := .vnone
  jsonapi : CVal := .vnone
  links : CVal := .vnone
  included : CVal := .vnone
  ext : List (String × CVal) := []

/-- `JsonAPIResourceIdentifierObject._validate`. -/
def cidentValidate (t i l : CVal) : Except CErr Unit :=
  if !truthyC t then .error .typeNotSet
  else if truthyC i = truthyC l then .error .idLidExclusive
  else
    match t with
    | .vstr s => if !is_valid_member_name s then .error .typeNotMemberName else .ok ()
    | _ => .ok ()

/-- `JsonAPIResourceIdentifierObject.to_dict` body: the four fields with
`None` values dropped. -/
def cidentToDict (t i l m : CVal) : List (String × CVal) :=
  ([("type", t), ("id", i), ("lid", l), ("meta", m)]).filter (fun p => !isVNone p.2)

/-- `x.to_dict()` on a dynamic value: identifier objects validate and
serialize; any other value has no `to_dict` method (`AttributeError`). -/
def objToDict : CVal → Except CErr (List (String × CVal))
  | .videntifier t i l m =>
    match cidentValidate t i l with
    | .error e => .error e
    | .ok () => .ok (cidentToDict t i l m)
  | _ => .error .attributeNoToDict

/-- `JsonAPIDocument._validate`.  The first Python check is
`all([x is None for x in (self.data, self.errors, self.meta,
self.extension_members)])`; `extension_members` is the kwargs dictionary and
is never `None`, so the conjunction carries a literal `false`. -/
def cdocValidate (d : CDoc) : Except CErr Unit :=
  if isVNone d.data && isVNone d.errors && isVNone d.meta && false then
    .error .docTopLevelEmpty
  else if truthyC d.data = truthyC d.errors then .error .docDataErrorsExactlyOne
  else if !truthyC d.data && truthyC d.included then .error .cIncludedWithoutData
  else
    match d.links with
    | .vstr s => if !is_valid_url s then .error .docLinksNotUrl else .ok ()
    | _ => .ok ()

/-- Python dict-literal insertion: update in place if the key exists, else
append. -/
def upsert (kvs : List (String × CVal)) (k : String) (v : CVal) :
    List (String × CVal) :=
  if kvs.any (fun p => p.1 == k) then
    kvs.map (fun p => if p.1 == k then (k, v) else p)
  else kvs ++ [(k, v)]

/-- Serializing a list of objects (`[x.to_dict() for x in v]`): only lists
are iterable here. -/
def objListToDicts : CVal → Except CErr CVal
  | .vlist xs => do
    let ds ← xs.mapM objToDict
    pure (CVal.vlist (ds.map CVal.vdict))
  | _ => .error .notIterable

/-- `JsonAPIDocument.to_dict`: re-validate, serialize `data`, build the
output dictionary `{'data', 'errors', 'meta', **extension_members,
'included', 'links', 'jsonapi'}` and drop `None` values. -/
def cToDict (d : CDoc) : Except CErr (List (String × CVal)) := do
  cdocValidate d
  let dataVal ←
    if truthyC d.data then
      match d.data with
      | .vlist xs => objListToDicts (.vlist xs)
      | v => do
        let kv ← objToDict v
        pure (CVal.vdict kv)
    else pure CVal.vnone
  let errorsVal := if truthyC d.errors then d.errors else CVal.vnone
  let metaVal := if truthyC d.meta then d.meta else CVal.vnone
  let includedVal ← if truthyC d.included then objListToDicts d.included else pure CVal.vnone
  let linksVal ←
    if truthyC d.links then do
      let kv ← objToDict d.links
      pure (CVal.vdict kv)
    else pure CVal.vnone
  let jsVal := if truthyC d.jsonapi then d.jsonapi else CVal.vnone
  let assembled :=
    (([("data", dataVal), ("errors", errorsVal), ("meta", metaVal)]
        ++ d.ext
        ++ [("included", includedVal), ("links", linksVal), ("jsonapi", jsVal)]).foldl
      (fun acc p => upsert acc p.1 p.2) [])
  pure (assembled.filter (fun p => !isVNone p.2))

/-- The named parameters of `JsonAPIDocument.__init__`; every other key of a
deserialized dictionary lands in `**kwargs`. -/
def fixedDocKeys : List String :=
  ["data", "errors", "meta", "jsonapi", "links", "included"]

/-- `JsonAPIDocument.from_json` after `json.loads`: call the constructor
with the dictionary's entries (missing parameters default to `None`,
unknown keys become extension members), which runs `_validate`. -/
def cFromDict (kvs : List (String × CVal)) : Except CErr CDoc :=
  let get (k : String) : CVal :=
    ((kvs.find? (fun p => p.1 == k)).map Prod.snd).getD CVal.vnone
  let d : CDoc :=
    { data := get "data", errors := get "errors", meta := get "meta",
      jsonapi := get "jsonapi", links := get "links", included := get "included",
      ext := kvs.filter (fun p => !fixedDocKeys.contains p.1) }
  match cdocValidate d with
  | .error e => .error e
  | .ok () => .ok d

/-- `deserialize(serialize(d))` at the dictionary level
(`from_json(to_json(d))` with the `json.dumps`/`json.loads` string layer,
which is the identity on JSON-serializable dictionaries). -/
def roundTrip (d : CDoc) : Except CErr CDoc := do
  let kvs ← cToDict d
  cFromDict kvs

/-- A valid document whose primary data is the resource identifier
`(articles, 1)`. -/
def specIdentDoc : CDoc :=
  { data := CVal.videntifier (.vstr "articles") (.vstr "1") .vnone .vnone }

/-- A document with errors, an optional meta/jsonapi value and extension
members, but no primary data — the family on which round-tripping can
succeed. -/
def errorsDoc (es : List CVal) (meta js : CVal) (ext : List (String × CVal)) : CDoc :=
  { data := .vnone, errors := .vlist es, meta := meta, jsonapi := js,
    links := .vnone, included := .vnone, ext := ext }

end Classes

namespace Builder

/-! ## Supporting lemmas -/

/-- Sequencing in `Except` succeeds iff both steps do. -/
theorem seqOk {ε : Type} {x y : Except ε Unit} :
    (do x; y) = .ok () ↔ x = .ok () ∧ y = .ok () := by
  cases x <;> simp [Bind.bind, Except.bind]

/-- Sequencing in `Except` fails with `e` iff the first step does, or the
first succeeds and the second fails with `e`. -/
theorem seqErr {ε : Type} {x y : Except ε Unit} {e : ε} :
    (do x; y) = .error e ↔ x = .error e ∨ (x = .ok () ∧ y = .error e) := by
  cases x <;> simp [Bind.bind, Except.bind]

/-- `allOk` succeeds iff the validator succeeds on every element. -/
theorem allOk_ok_iff {α : Type} (f : α → Except Err Unit) (l : List α) :
    allOk f l = .ok () ↔ ∀ x ∈ l, f x = .ok () := by
  induction l with
  | nil => simp [allOk]
  | cons x xs ih => simp [allOk, seqOk, ih]

/-- A failing `allOk` pulls back to a failing element. -/
theorem allOk_error {α : Type} {f : α → Except Err Unit} {l : List α} {e : Err}
    (h : allOk f l = .error e) : ∃ x ∈ l, f x = .error e := by
  induction l with
  | nil => simp [allOk] at h
  | cons x xs ih =>
    rw [allOk, seqErr] at h
    rcases h with h | ⟨_, h⟩
    · exact ⟨x, by simp, h⟩
    · obtain ⟨y, hy, hfy⟩ := ih h
      exact ⟨y, by simp [hy], hfy⟩

/-- A truthy optional string is exactly a present non-empty string. -/
theorem truthyStr_some {s : String} (h : s ≠ "") :
    truthyStr (Option.some s) = true := by
  simp only [truthyStr, Bool.not_eq_true']
  simp only [Bool.eq_false_iff, ne_eq, String.isEmpty_iff]
  exact h

/-! ### Error classification

Each validator can only produce errors from its own `raise` sites.  The
class number below groups the `Err` constructors by originating validator;
the lemmas that follow bound which classes each validator can emit, which
lets the `iff`-shaped claims rule out cross-talk between validation steps. -/

/-- The originating-validator class of an error. -/
def errClass : Err → Nat
  | .emptyMemberName | .invalidMemberName _ | .reservedMemberChar _ _ => 0
  | .rioMissingIdentity | .rioIdNotString | .rioLidNotString => 1
  | .linkRelNotAlnum | .linkHreflangEmpty | .linkHreflangInvalid _ => 2
  | .relEmpty => 3
  | .relInvalidLinkKey _ | .relInvalidLinkUri _ => 4
  | .roTypeNotString | .roIdNotString | .roLidNotString | .roMissingIdentity
  | .roReservedConflict _ | .roAttrRelConflict _ | .roReservedAttr _
  | .roForeignKeyAttr _ | .roReservedRel _ => 5
  | .roInvalidLinkKey _ | .roInvalidLinkUri _ => 6
  | .jsonapiBadVersion _ => 7
  | .docDataErrorsConflict => 8
  | .docEmpty => 9
  | .docIncludedWithoutData => 10
  | .docDuplicateIncluded _ _ _ => 11
  | .docUnreachableIncluded _ => 12
  | .docInvalidLinkKey _ | .docInvalidLinkUri _ => 13

/-- `validate_member_name` only raises member-name errors. -/
theorem vmn_errClass {n : String} {e : Err}
    (h : validate_member_name n = .error e) : errClass e = 0 := by
  simp only [validate_member_name] at h
  split_ifs at h with h1 h2
  · simp only [Except.error.injEq] at h; subst h; rfl
  · rcases hf : n.toList.find? (fun c => reservedMemberChars.contains c) with _ | c
    · simp only [hf] at h; exact absurd h (by simp)
    · simp only [hf, Except.error.injEq] at h
      subst h; rfl
  · simp only [Except.error.injEq] at h; subst h; rfl

/-- `checkExtNames` only raises member-name errors. -/
theorem checkExtNames_errClass {l : List (String × PyVal)} {e : Err}
    (h : checkExtNames l = .error e) : errClass e = 0 := by
  induction l with
  | nil => simp [checkExtNames] at h
  | cons p rest ih =>
    rw [checkExtNames] at h
    rcases hv : validate_member_name p.1 with e' | u
    · rw [hv] at h
      simp only [Except.error.injEq] at h
      subst h; exact vmn_errClass hv
    · rw [hv] at h; exact ih h

/-- `validateLinkObject` only raises link-object errors. -/
theorem validateLinkObject_errClass {lo : LinkObject} {e : Err}
    (h : validateLinkObject lo = .error e) : errClass e = 2 := by
  rw [validateLinkObject, seqErr] at h
  rcases h with h | ⟨_, h⟩
  · rw [linkRelCheck] at h
    rcases hr : lo.rel with _ | s
    · simp only [hr] at h; exact absurd h (by simp)
    · simp only [hr] at h
      split_ifs at h <;>
        first
        | (simp only [Except.error.injEq] at h; subst h; rfl)
        | exact absurd h (by simp)
  · rw [linkHreflangCheck] at h
    rcases hr : lo.hreflang with _ | hl
    · simp only [hr] at h; exact absurd h (by simp)
    · rcases hl with s | tags <;> simp only [hr] at h
      · split_ifs at h <;>
          first
          | (simp only [Except.error.injEq] at h; subst h; rfl)
          | exact absurd h (by simp)
      · split_ifs at h with h1
        · simp only [Except.error.injEq] at h; subst h; rfl
        · rcases hf : tags.find? (fun t => !languageTagOk t) with _ | t
          · simp only [hf] at h; exact absurd h (by simp)
          · simp only [hf, Except.error.injEq] at h
            subst h; rfl

/-- `linkPairCheck` only raises its parameterized key/URI errors or
link-object errors. -/
theorem linkPairCheck_errClass {A : List String} {mk mu : String → Err}
    {rv : Bool} {p : String × LinkValue} {e : Err}
    (h : linkPairCheck A mk mu rv p = .error e) :
    (∃ k, e = mk k) ∨ (∃ k, e = mu k) ∨ errClass e = 2 := by
  obtain ⟨k, v⟩ := p
  simp only [linkPairCheck] at h
  by_cases h1 : (!A.contains k) = true
  · rw [if_pos h1] at h
    simp only [Except.error.injEq] at h; subst h; exact Or.inl ⟨k, rfl⟩
  · rw [if_neg h1] at h
    rcases v with _ | s | lo
    · exact absurd h (by simp)
    · simp only at h
      by_cases h2 : (!is_valid_uri s) = true
      · rw [if_pos h2] at h
        simp only [Except.error.injEq] at h; subst h
        exact Or.inr (Or.inl ⟨k, rfl⟩)
      · rw [if_neg h2] at h; exact absurd h (by simp)
    · simp only at h
      by_cases h2 : rv = true
      · rw [if_pos h2] at h
        exact Or.inr (Or.inr (validateLinkObject_errClass h))
      · rw [if_neg h2] at h; exact absurd h (by simp)

/-- `checkLinksMap` only raises its parameterized key/URI errors or
link-object errors. -/
theorem checkLinksMap_errClass {A : List String} {mk mu : String → Err}
    {rv : Bool} {l : List (String × LinkValue)} {e : Err}
    (h : checkLinksMap A mk mu rv l = .error e) :
    (∃ k, e = mk k) ∨ (∃ k, e = mu k) ∨ errClass e = 2 := by
  rw [checkLinksMap] at h
  obtain ⟨p, _, hp⟩ := allOk_error h
  exact linkPairCheck_errClass hp

/-- `validate_id_or_lid` only raises identifier errors. -/
theorem validate_id_or_lid_errClass {r : ResourceIdentifierObject} {e : Err}
    (h : validate_id_or_lid r = .error e) : errClass e = 1 := by
  simp only [validate_id_or_lid] at h
  split_ifs at h <;> (simp only [Except.error.injEq] at h; subst h; rfl)

/-- `validate_relationship` only raises emptiness, relationship-link or
member-name errors (class at most 4). -/
theorem validate_relationship_errClass {rel : RelationshipObject} {e : Err}
    (h : validate_relationship rel = .error e) : errClass e ≤ 4 := by
  simp only [validate_relationship] at h
  split_ifs at h with h1 h2
  · simp only [Except.error.injEq] at h; subst h; simp [errClass]
  · rcases hc : checkLinksMap ["self", "related", "describedby"]
        Err.relInvalidLinkKey Err.relInvalidLinkUri false ((rel.links).getD []) with e' | u <;>
      simp only [hc] at h
    · simp only [Except.error.injEq] at h; subst h
      rcases checkLinksMap_errClass hc with ⟨k, hk⟩ | ⟨k, hk⟩ | hk <;>
        first
        | (subst hk; simp [errClass])
        | omega
    · have := checkExtNames_errClass h
      omega
  · simp only at h
    have := checkExtNames_errClass h
    omega

/-- `validate_resource_object` only raises resource or link-object errors
(class 2, 5 or 6, hence at most 6 and at least 2). -/
theorem validate_resource_object_errClass {r : ResourceObject} {e : Err}
    (h : validate_resource_object r = .error e) :
    2 ≤ errClass e ∧ errClass e ≤ 6 := by
  rw [validate_resource_object] at h
  rw [seqErr] at h
  rcases h with h | ⟨_, h⟩
  · rw [roTypeCheck] at h
    split_ifs at h <;>
      first
      | (simp only [Except.error.injEq] at h; subst h; simp [errClass])
      | exact absurd h (by simp)
  rw [seqErr] at h
  rcases h with h | ⟨_, h⟩
  · rw [roIdStrCheck] at h
    split_ifs at h <;>
      first
      | (simp only [Except.error.injEq] at h; subst h; simp [errClass])
      | exact absurd h (by simp)
  rw [seqErr] at h
  rcases h with h | ⟨_, h⟩
  · rw [roIdentityCheck] at h
    split_ifs at h <;>
      first
      | (simp only [Except.error.injEq] at h; subst h; simp [errClass])
      | exact absurd h (by simp)
  rw [seqErr] at h
  rcases h with h | ⟨_, h⟩
  · simp only [roConflictCheck] at h
    split_ifs at h <;>
      first
      | (simp only [Except.error.injEq] at h; subst h; simp [errClass])
      | exact absurd h (by simp)
  rw [seqErr] at h
  rcases h with h | ⟨_, h⟩
  · simp only [roAttrCheck] at h
    split_ifs at h <;>
      first
      | (simp only [Except.error.injEq] at h; subst h; simp [errClass])
      | exact absurd h (by simp)
  rw [seqErr] at h
  rcases h with h | ⟨_, h⟩
  · simp only [roRelCheck] at h
    split_ifs at h <;>
      first
      | (simp only [Except.error.injEq] at h; subst h; simp [errClass])
      | exact absurd h (by simp)
  · rw [roLinksCheck] at h
    split_ifs at h with h1
    · rcases checkLinksMap_errClass h with ⟨k, hk⟩ | ⟨k, hk⟩ | hk <;>
        first
        | (subst hk; simp [errClass])
        | omega

/-- `validateJSONAPI` only raises the version error. -/
theorem validateJSONAPI_errClass {j : JSONAPIObject} {e : Err}
    (h : validateJSONAPI j = .error e) : errClass e = 7 := by
  rw [validateJSONAPI] at h
  split_ifs at h <;> simp only [Except.error.injEq] at h
  subst h; rfl

/-- Construction-time (nested, pydantic field-level) validation only raises
errors of class at most 7 — in particular never a document-level error. -/
theorem docPartsOk_errClass {d : Document} {e : Err}
    (h : docPartsOk d = .error e) : errClass e ≤ 7 := by
  have hrel : ∀ (rel : RelationshipObject), relPartsOk rel = .error e → errClass e ≤ 7 := by
    intro rel hr
    rw [relPartsOk, seqErr] at hr
    rcases hr with hr | ⟨_, hr⟩
    · obtain ⟨x, _, hx⟩ := allOk_error hr
      have := validate_id_or_lid_errClass hx; omega
    rw [seqErr] at hr
    rcases hr with hr | ⟨_, hr⟩
    · obtain ⟨x, _, hx⟩ := allOk_error hr
      have := validateLinkObject_errClass hx; omega
    · have := validate_relationship_errClass hr; omega
  have hro : ∀ (r : ResourceObject), roPartsOk r = .error e → errClass e ≤ 7 := by
    intro r hr
    rw [roPartsOk, seqErr] at hr
    rcases hr with hr | ⟨_, hr⟩
    · obtain ⟨x, _, hx⟩ := allOk_error hr
      exact hrel x hx
    rw [seqErr] at hr
    rcases hr with hr | ⟨_, hr⟩
    · obtain ⟨x, _, hx⟩ := allOk_error hr
      have := validateLinkObject_errClass hx; omega
    · have := validate_resource_object_errClass hr; omega
  rw [docPartsOk, seqErr] at h
  rcases h with h | ⟨_, h⟩
  · obtain ⟨x, _, hx⟩ := allOk_error h
    rcases x with r | ri
    · exact hro r hx
    · have := validate_id_or_lid_errClass hx; omega
  rw [seqErr] at h
  rcases h with h | ⟨_, h⟩
  · obtain ⟨x, _, hx⟩ := allOk_error h
    exact hro x hx
  rw [seqErr] at h
  rcases h with h | ⟨_, h⟩
  · rcases hj : d.jsonapi with _ | j <;> rw [hj] at h
    · simp at h
    · have := validateJSONAPI_errClass h; omega
  · obtain ⟨x, _, hx⟩ := allOk_error h
    have := validateLinkObject_errClass hx; omega

/-- `dupCheckAux` only raises the duplicate error. -/
theorem dupCheckAux_errClass {seen : Finset (String × Option String)}
    {inc : List ResourceObject} {e : Err}
    (h : dupCheckAux seen inc = .error e) : errClass e = 11 := by
  induction inc generalizing seen with
  | nil => simp [dupCheckAux] at h
  | cons r rest ih =>
    rw [dupCheckAux] at h
    split_ifs at h with h1
    · simp only [Except.error.injEq] at h; subst h; rfl
    · exact ih h

/-- The included block only raises duplicate or unreachable errors. -/
theorem docIncludedBlock_errClass {d : Document} {e : Err}
    (h : docIncludedBlock d = .error e) : errClass e = 11 ∨ errClass e = 12 := by
  rw [docIncludedBlock] at h
  rcases hi : d.included with _ | inc <;> rw [hi] at h
  · simp at h
  · rw [seqErr] at h
    rcases h with h | ⟨_, h⟩
    · exact Or.inl (dupCheckAux_errClass h)
    · split_ifs at h <;> simp only [Except.error.injEq] at h
      subst h; exact Or.inr rfl

/-- The top-level links check only raises document-link or link-object
errors. -/
theorem docLinksCheck_errClass {d : Document} {e : Err}
    (h : docLinksCheck d = .error e) : errClass e = 13 ∨ errClass e = 2 := by
  rw [docLinksCheck] at h
  split_ifs at h with h1
  · rcases checkLinksMap_errClass h with ⟨k, hk⟩ | ⟨k, hk⟩ | hk
    · subst hk; exact Or.inl rfl
    · subst hk; exact Or.inl rfl
    · exact Or.inr hk

/-! ## C3 — member-name grammar on the spec's examples -/

/-- C3 counterexample: the claim states that `ns:member` is accepted with
`:` permitted as the namespaced-extension separator, but
`validate_member_name` rejects it — the reserved-character scan runs
unconditionally after the pattern match and `:` is in the reserved set (the
repository's own tests expect exactly this rejection). -/
theorem c3_counterexample :
    validate_member_name "ns:member" =
      .error (.reservedMemberChar "ns:member" ':') := by decide

/-- C3 (amended): of the spec's representative examples, `user`, `@meta` and
`ユーザー` are accepted and `user+`, `user.`, `-user`, `user-`, `:member`,
`ns:sub:member` are rejected, as claimed; but `ns:member` is rejected too,
because every `:` — including the namespaced-extension separator — trips the
reserved-character scan. -/
theorem c3_member_name_examples :
    validate_member_name "user" = .ok ()
    ∧ validate_member_name "@meta" = .ok ()
    ∧ validate_member_name "ユーザー" = .ok ()
    ∧ validate_member_name "ns:member" = .error (.reservedMemberChar "ns:member" ':')
    ∧ validate_member_name "user+" = .error (.invalidMemberName "user+")
    ∧ validate_member_name "user." = .error (.invalidMemberName "user.")
    ∧ validate_member_name "-user" = .error (.invalidMemberName "-user")
    ∧ validate_member_name "user-" = .error (.invalidMemberName "user-")
    ∧ validate_member_name ":member" = .error (.invalidMemberName ":member")
    ∧ validate_member_name "ns:sub:member" = .error (.invalidMemberName "ns:sub:member") := by
  refine ⟨?_, ?_, ?_, ?_, ?_, ?_, ?_, ?_, ?_, ?_⟩ <;> decide

/-! ## C4 — ASCII-alphanumeric core member names (code bug) -/

/-- C4: the claim — every non-empty ASCII-alphanumeric string is a valid
core member name — is what the code's own comments intend (`'DEL'
represents U+007F`), but the reserved set is built from the *characters* of
the string `'+,.,…,DEL'`, so the letters `D`, `E`, `L` are treated as
reserved and alphanumeric names containing them are rejected.  `"D"` is
non-empty and ASCII-alphanumeric yet `validate_member_name` raises the
reserved-character error for it (likewise `"Dog"`). -/
theorem c4_del_letters_rejected :
    validate_member_name "D" = .error (.reservedMemberChar "D" 'D')
    ∧ validate_member_name "Dog" = .error (.reservedMemberChar "Dog" 'D')
    ∧ "D".toList.all Char.isAlphanum = true
    ∧ "Dog".toList.all Char.isAlphanum = true
    ∧ ('D' ∈ reservedMemberChars ∧ 'E' ∈ reservedMemberChars ∧ 'L' ∈ reservedMemberChars) := by
  refine ⟨?_, ?_, ?_, ?_, ?_, ?_, ?_⟩ <;> decide

/-! ## C5 — identity XOR (corrected: both id and lid are accepted) -/

/-- C5 counterexample: a `ResourceObject` carrying *both* `id` and `lid`
validates successfully, contradicting the claim that such a construction
fails with `IdentityConflict` (the validator only rejects the
neither-present case, and the repository's tests list both-present data as
valid). -/
theorem c5_counterexample :
    validate_resource_object
      { type_ := "articles", id_ := Option.some "1", lid := Option.some "local-1" } = .ok () := by
  decide

/-- C5 (amended): every successfully validated `ResourceObject` has at least
one of `id`/`lid` truthy; constructing with neither fails
(`ResourceObject must have either 'id' or 'lid'`), and a
`ResourceIdentifierObject` with neither fails likewise; but a resource with
both present validates successfully — the exactly-one (XOR) half of the
claim does not hold. -/
theorem c5_identity_amended :
    (∀ r : ResourceObject, validate_resource_object r = .ok () →
      truthyStr r.id_ = true ∨ truthyStr r.lid = true)
    ∧ (∀ (t : String) (a : Option (List (String × PyVal)))
        (rl : Option (List (String × RelationshipObject)))
        (l : Option LinksMap) (m : Option (List (String × PyVal))), t ≠ "" →
        validate_resource_object
          { type_ := t, id_ := Option.none, lid := Option.none,
            attributes := a, relationships := rl, links := l, meta := m } =
          .error .roMissingIdentity)
    ∧ (∀ (t : String) (m : Option (List (String × PyVal))),
        validate_id_or_lid
          { type_ := t, id_ := Option.none, lid := Option.none, meta := m } =
          .error .rioMissingIdentity)
    ∧ validate_resource_object
        { type_ := "articles", id_ := Option.some "1", lid := Option.some "local-1" } = .ok () := by
  refine ⟨?_, ?_, ?_, by decide⟩
  · intro r h
    rw [validate_resource_object, seqOk, seqOk, seqOk, seqOk, seqOk, seqOk] at h
    have h3 := h.2.2.1
    rw [roIdentityCheck] at h3
    by_cases hid : truthyStr r.id_ = true
    · exact Or.inl hid
    · by_cases hlid : truthyStr r.lid = true
      · exact Or.inr hlid
      · simp [Bool.not_eq_true] at hid hlid
        simp [hid, hlid] at h3
  · intro t a rl l m ht
    rw [validate_resource_object, seqErr]
    refine Or.inr ⟨by simp [roTypeCheck, ht], ?_⟩
    rw [seqErr]
    refine Or.inr ⟨by simp [roIdStrCheck], ?_⟩
    rw [seqErr]
    exact Or.inl (by simp [roIdentityCheck, truthyStr])
  · intro t m
    simp [validate_id_or_lid, truthyStr]

/-- C5 witness: the amended theorem applied at concrete inputs. -/
theorem c5_identity_amended_witness :
    (truthyStr (Option.some "1") = true ∨ truthyStr Option.none = true)
    ∧ validate_resource_object { type_ := "articles" } = .error .roMissingIdentity := by
  exact ⟨c5_identity_amended.1 { type_ := "articles", id_ := Option.some "1" } (by decide),
    c5_identity_amended.2.1 "articles" Option.none Option.none Option.none Option.none
      (by decide)⟩

/-! ## C6 — type validity (corrected: no member-name check on `type`) -/

/-- C6 counterexample: a `ResourceIdentifierObject` whose `type` contains the
reserved character `+` — hence fails member-name validation — validates
successfully: the jsonapi_builder validators never member-name-check
`type`, contradicting the claim that such constructions fail with
`InvalidType`. -/
theorem c6_counterexample :
    validate_id_or_lid { type_ := "user+", id_ := Option.some "1" } = .ok ()
    ∧ validate_member_name "user+" = .error (.invalidMemberName "user+")
    ∧ validate_resource_object { type_ := "user+", id_ := Option.some "1" } = .ok () := by
  refine ⟨?_, ?_, ?_⟩ <;> decide

/-- C6 (amended): the type check of `validate_resource_object` only demands
a non-empty string — any non-empty `type`, member-name-valid or not, passes
both validators (given a present id), and only the empty string trips the
resource validator's `'type' must be a string.` error.  No member-name
validation of `type` is performed. -/
theorem c6_type_check_amended :
    (∀ t i : String, i ≠ "" →
      validate_id_or_lid { type_ := t, id_ := Option.some i } = .ok ())
    ∧ (∀ t i : String, t ≠ "" → i ≠ "" →
      validate_resource_object { type_ := t, id_ := Option.some i } = .ok ())
    ∧ (∀ i : String, i ≠ "" →
      validate_resource_object { type_ := "", id_ := Option.some i } =
        .error .roTypeNotString) := by
  refine ⟨?_, ?_, ?_⟩
  · intro t i hi
    simp [validate_id_or_lid, truthyStr_some hi, Option.some.injEq, hi]
  · intro t i ht hi
    rw [validate_resource_object]
    rw [seqOk, seqOk, seqOk, seqOk, seqOk, seqOk]
    refine ⟨by simp [roTypeCheck, ht], by simp [roIdStrCheck, Option.some.injEq, hi], ?_,
      by simp [roConflictCheck, truthyDict], by simp [roAttrCheck, truthyDict],
      by simp [roRelCheck, truthyDict], by simp [roLinksCheck, truthyLinks]⟩
    simp [roIdentityCheck, truthyStr_some hi]
  · intro i hi
    rw [validate_resource_object, seqErr]
    exact Or.inl (by simp [roTypeCheck])

/-- C6 witness: the amended theorem applied at concrete inputs, including a
member-name-invalid type. -/
theorem c6_type_check_amended_witness :
    validate_id_or_lid { type_ := "user+", id_ := Option.some "1" } = .ok ()
    ∧ validate_resource_object { type_ := "user+", id_ := Option.some "1" } = .ok ()
    ∧ validate_resource_object { type_ := "", id_ := Option.some "1" } =
        .error .roTypeNotString := by
  exact ⟨c6_type_check_amended.1 "user+" "1" (by decide),
    c6_type_check_amended.2.1 "user+" "1" (by decide) (by decide),
    c6_type_check_amended.2.2 "1" (by decide)⟩

/-! ## C7 — document non-emptiness (corrected: extensions do not count) -/

/-- C7 counterexample: a document whose only content is a non-empty
extension-member map — with a perfectly valid member name — raises the
emptiness error, contradicting the claim that it constructs successfully:
the emptiness check consults only `data`, `errors`, `meta` and `jsonapi`,
never the extension members. -/
theorem c7_counterexample :
    construct_document { extensionMembers := [("foo", PyVal.str "x")] } = .error .docEmpty
    ∧ validate_member_name "foo" = .ok () := by
  refine ⟨?_, ?_⟩ <;> decide

/-- C7 (amended): construction fails with the emptiness error iff the nested
parts validate and `data`, `errors`, `meta` and `jsonapi` are all absent —
regardless of extension members (which the Python check never consults; note
the check is `is None`-based, not truthiness-based).  A document containing
only `meta` constructs successfully, but an extension-members-only document
does not. -/
theorem c7_emptiness_amended :
    (∀ d : Document, construct_document d = .error .docEmpty ↔
      docPartsOk d = .ok () ∧ d.data.isNull = true ∧ d.errors = Option.none
        ∧ d.meta = Option.none ∧ d.jsonapi = Option.none)
    ∧ (∀ m : List (String × PyVal),
        construct_document { meta := Option.some m } = .ok ()) := by
  constructor
  · intro d
    constructor
    · intro h
      rw [construct_document, seqErr] at h
      rcases h with h | ⟨hp, h⟩
      · have := docPartsOk_errClass h; simp [errClass] at this
      · refine ⟨hp, ?_⟩
        rw [validate_document, seqErr] at h
        rcases h with h | ⟨h1, h⟩
        · rw [docDataErrorsCheck] at h
          split_ifs at h <;> simp [Except.error.injEq, errClass] at h
        rw [seqErr] at h
        rcases h with h | ⟨h2, h⟩
        · rw [docNonEmptyCheck] at h
          split_ifs at h with hc
          simp only [Bool.and_eq_true, Bool.not_eq_true', Option.not_isSome,
            Option.isNone_iff_eq_none] at hc
          exact ⟨hc.1.1.1, hc.1.1.2, hc.1.2, hc.2⟩
        rw [seqErr] at h
        rcases h with h | ⟨h3, h⟩
        · rw [docIncludedRequiresData] at h
          split_ifs at h <;> simp [Except.error.injEq] at h
        rw [seqErr] at h
        rcases h with h | ⟨h4, h⟩
        · rw [docExtCheck] at h
          have := checkExtNames_errClass h
          simp [errClass] at this
        rw [seqErr] at h
        rcases h with h | ⟨h5, h⟩
        · rcases docIncludedBlock_errClass h with hh | hh <;> simp [errClass] at hh
        · rcases docLinksCheck_errClass h with hh | hh <;> simp [errClass] at hh
    · rintro ⟨hp, h1, h2, h3, h4⟩
      rw [construct_document, seqErr]
      refine Or.inr ⟨hp, ?_⟩
      rw [validate_document, seqErr]
      refine Or.inr ⟨by simp [docDataErrorsCheck, h1], ?_⟩
      rw [seqErr]
      exact Or.inl (by simp [docNonEmptyCheck, h1, h2, h3, h4])
  · intro m
    rfl

/-- C7 witness: the amended iff applied at a concrete empty document, and
the meta-only conjunct at a concrete meta map. -/
theorem c7_emptiness_amended_witness :
    construct_document ({} : Document) = .error .docEmpty
    ∧ construct_document { meta := Option.some [("count", PyVal.int 3)] } = .ok () := by
  refine ⟨?_, c7_emptiness_amended.2 [("count", PyVal.int 3)]⟩
  exact (c7_emptiness_amended.1 {}).mpr ⟨by decide, by decide, rfl, rfl, rfl⟩

/-! ## C8 — relationship non-emptiness (corrected for the pydantic
`RelationshipObject`; the classes-module `JsonAPIRelationshipsObject`
matches the claim) -/

/-- C8 counterexample: a pydantic `RelationshipObject` whose only content is
an extension member (with a valid member name) raises the emptiness error —
`validate_relationship` checks only `links`, `data` and `meta` — refuting
the claim that such a relationship constructs successfully. -/
theorem c8_counterexample :
    validate_relationship { extensionMembers := [("note", PyVal.int 1)] } = .error .relEmpty
    ∧ validate_member_name "note" = .ok () := by
  refine ⟨?_, ?_⟩ <;> decide

/-- C8 (amended): the pydantic `RelationshipObject` fails with the emptiness
error iff `links`, `data` and `meta` are all falsy — extension members are
*not* consulted, so an extension-only relationship fails; the hand-written
`JsonAPIRelationshipsObject` of the classes module behaves as the claim
states: it fails iff links, data, meta *and* the additional members are all
empty, and an additional-members-only relationship constructs
successfully. -/
theorem c8_emptiness_amended :
    (∀ rel : RelationshipObject, validate_relationship rel = .error .relEmpty ↔
      truthyLinks rel.links = false ∧ truthyRelData rel.data = false
        ∧ truthyDict rel.meta = false)
    ∧ (∀ rel : Classes.CRelationships,
        Classes.crelValidate rel = .error .relEmptyClasses ↔
          rel.links = Option.none ∧ Classes.truthyC rel.data = false
            ∧ Classes.truthyC rel.meta = false ∧ rel.additional = [])
    ∧ (∀ (p : String × Classes.CVal) (ps : List (String × Classes.CVal)),
        Classes.crelValidate { additional := p :: ps } = .ok ()) := by
  refine ⟨?_, ?_, ?_⟩
  · intro rel
    constructor
    · intro h
      simp only [validate_relationship] at h
      split_ifs at h with h1 h2
      · simp only [Bool.and_eq_true, Bool.not_eq_true'] at h1
        exact ⟨h1.1.1, h1.1.2, h1.2⟩
      · rcases hc : checkLinksMap ["self", "related", "describedby"]
            Err.relInvalidLinkKey Err.relInvalidLinkUri false
            ((rel.links).getD []) with e' | u <;> simp only [hc] at h
        · simp only [Except.error.injEq] at h
          subst h
          rcases checkLinksMap_errClass hc with ⟨k, hk⟩ | ⟨k, hk⟩ | hk <;>
            simp [errClass] at hk
        · have := checkExtNames_errClass h
          simp [errClass] at this
      · simp only at h
        have := checkExtNames_errClass h
        simp [errClass] at this
    · rintro ⟨h1, h2, h3⟩
      simp [validate_relationship, h1, h2, h3]
  · intro rel
    constructor
    · intro h
      rw [Classes.crelValidate] at h
      split_ifs at h with h1
      · simp only [Bool.and_eq_true, Bool.not_eq_true', Option.isNone_iff_eq_none,
          List.isEmpty_iff] at h1
        exact ⟨h1.1.1.1, h1.1.1.2, h1.1.2, h1.2⟩
      · rcases hl : rel.links with _ | l
        · simp only [hl] at h; exact absurd h (by simp)
        · simp only [hl] at h
          split_ifs at h <;> simp [Except.error.injEq] at h
    · rintro ⟨h1, h2, h3, h4⟩
      simp [Classes.crelValidate, h1, h2, h3, h4]
  · intro p ps
    simp [Classes.crelValidate]

/-- C8 witness: the amended characterizations applied at concrete
relationships. -/
theorem c8_emptiness_amended_witness :
    validate_relationship
      { links := Option.some [], data := Option.some (RelData.many []),
        meta := Option.some [], extensionMembers := [("note", PyVal.int 1)] } =
      .error .relEmpty
    ∧ Classes.crelValidate { additional := [("note", Classes.CVal.vint 1)] } = .ok () := by
  refine ⟨(c8_emptiness_amended.1 _).mpr ⟨by decide, by decide, by decide⟩, ?_⟩
  exact c8_emptiness_amended.2.2 ("note", Classes.CVal.vint 1) []

/-! ## C10 — empty collections count as absent at the relationship
interface -/

/-- C10: a `RelationshipObject` whose `data` is the empty list (links, meta,
extensions absent) raises the emptiness error rather than carrying an empty
to-many linkage, and since the presence checks are truthiness-based, empty
`links`/`meta` dictionaries also count as absent (even alongside extension
members); in general any relationship whose `links`, `data` and `meta` are
all falsy raises the emptiness error. -/
theorem c10_empty_collections_absent :
    validate_relationship { data := Option.some (RelData.many []) } = .error .relEmpty
    ∧ validate_relationship
        { links := Option.some [], data := Option.some (RelData.many []),
          meta := Option.some [],
          extensionMembers := [("note", PyVal.int 1)] } = .error .relEmpty
    ∧ (∀ rel : RelationshipObject, truthyLinks rel.links = false →
        truthyRelData rel.data = false → truthyDict rel.meta = false →
        validate_relationship rel = .error .relEmpty) := by
  refine ⟨by decide, by decide, ?_⟩
  intro rel h1 h2 h3
  simp [validate_relationship, h1, h2, h3]

/-! ### Traversal lemmas

`_traverse_relationships` threads a `visited` and a `reachable` set; keys
are always inserted into both together, so the two sets coincide when they
start equal; the traversal is monotone in `visited`; and pre-inserting a key
that the traversal never reaches commutes with the whole traversal. -/

/-- A fold preserves any invariant its step preserves. -/
theorem foldl_trav_pres {β : Type} (P : Trav → Prop) (f : Trav → β → Trav)
    (hf : ∀ st b, P st → P (f st b)) :
    ∀ (l : List β) (st : Trav), P st → P (l.foldl f st) := by
  intro l
  induction l with
  | nil => intro st h; exact h
  | cons x xs ih => intro st h; exact ih _ (hf st x h)

/-- `visitKey` keeps the two sets equal. -/
theorem visitKey_eq {st : Trav} {k : String × Option String}
    (h : st.visited = st.reachable) :
    (visitKey st k).visited = (visitKey st k).reachable := by
  rw [visitKey]; split_ifs
  · exact h
  · simp [h]

/-- `visitItem` keeps the two sets equal. -/
theorem visitItem_eq {st : Trav} (x : DataItem)
    (h : st.visited = st.reachable) :
    (visitItem st x).visited = (visitItem st x).reachable := by
  rcases x with r | ri
  · rw [visitItem, visitResource]
    split_ifs with h1 h2
    · exact h
    · exact foldl_trav_pres (fun s => s.visited = s.reachable) _
        (fun st' p hp => by
          rw [visitRel]; split_ifs
          · exact foldl_trav_pres (fun s => s.visited = s.reachable) _
              (fun st'' ri' hq => visitKey_eq hq) _ _ hp
          · exact hp) _ _ (by simp [h])
    · simp [h]
  · exact visitKey_eq h

/-- Started from equal (in particular empty) sets, the traversal's `visited`
and `reachable` sets coincide. -/
theorem traverseData_eq (d : PrimaryData) :
    (traverseData d).visited = (traverseData d).reachable := by
  rw [traverseData, visitItems]
  exact foldl_trav_pres (fun s => s.visited = s.reachable) _
    (fun st x hp => visitItem_eq x hp) _ _ rfl

/-- A fold whose step is `visited`-monotone is `visited`-monotone. -/
theorem foldl_trav_mono {β : Type} (f : Trav → β → Trav)
    (hf : ∀ st b, st.visited ⊆ (f st b).visited) :
    ∀ (l : List β) (st : Trav), st.visited ⊆ (l.foldl f st).visited := by
  intro l
  induction l with
  | nil => intro st; exact Finset.Subset.refl _
  | cons x xs ih => intro st; exact (hf st x).trans (ih (f st x))

/-- `visitKey` only grows `visited`. -/
theorem visitKey_mono (st : Trav) (k : String × Option String) :
    st.visited ⊆ (visitKey st k).visited := by
  rw [visitKey]; split_ifs
  · exact Finset.Subset.refl _
  · exact Finset.subset_insert _ _

/-- `visitRel` only grows `visited`. -/
theorem visitRel_mono (st : Trav) (rel : RelationshipObject) :
    st.visited ⊆ (visitRel st rel).visited := by
  rw [visitRel]; split_ifs
  · exact foldl_trav_mono _ (fun st' ri => visitKey_mono st' _) _ st
  · exact Finset.Subset.refl _

/-- `visitItem` only grows `visited`. -/
theorem visitItem_mono (st : Trav) (x : DataItem) :
    st.visited ⊆ (visitItem st x).visited := by
  rcases x with r | ri
  · rw [visitItem, visitResource]
    split_ifs with h1 h2
    · exact Finset.Subset.refl _
    · exact (Finset.subset_insert _ _).trans
        (foldl_trav_mono (fun s (p : String × RelationshipObject) => visitRel s p.2)
          (fun st' p => visitRel_mono st' p.2) (relsOf r)
          ⟨insert (keyOfRes r) st.visited, insert (keyOfRes r) st.reachable⟩)
    · exact Finset.subset_insert _ _
  · exact visitKey_mono st _

/-- `visitItems` only grows `visited`. -/
theorem visitItems_mono (st : Trav) (xs : List DataItem) :
    st.visited ⊆ (visitItems st xs).visited := by
  rw [visitItems]
  exact foldl_trav_mono _ visitItem_mono xs st

/-- A fold whose step is monotone and commutes with pre-inserting an
unreached key commutes with pre-inserting an unreached key. -/
theorem foldl_insertK_comm {β : Type} (f : Trav → β → Trav)
    (hmono : ∀ st b, st.visited ⊆ (f st b).visited)
    (hcomm : ∀ st b k, k ∉ (f st b).visited → f (insertK k st) b = insertK k (f st b)) :
    ∀ (l : List β) (st : Trav) (k : String × Option String),
      k ∉ (l.foldl f st).visited →
      l.foldl f (insertK k st) = insertK k (l.foldl f st) := by
  intro l
  induction l with
  | nil => intro st k _; rfl
  | cons x xs ih =>
    intro st k hk
    rw [List.foldl_cons] at hk ⊢
    have hx : k ∉ (f st x).visited :=
      fun hmem => hk (foldl_trav_mono f hmono xs (f st x) hmem)
    rw [hcomm st x k hx]
    exact ih (f st x) k hk

/-- `visitKey` commutes with pre-inserting an unreached key. -/
theorem visitKey_comm (st : Trav) (k' k : String × Option String)
    (h : k ∉ (visitKey st k').visited) :
    visitKey (insertK k st) k' = insertK k (visitKey st k') := by
  by_cases h1 : k' ∈ st.visited
  · have h1' : k' ∈ (insertK k st).visited := Finset.mem_insert_of_mem h1
    rw [visitKey, if_pos h1', visitKey, if_pos h1]
  · have hk : k ∉ insert k' st.visited := by
      rw [visitKey, if_neg h1] at h
      exact h
    simp only [Finset.mem_insert] at hk
    push_neg at hk
    obtain ⟨hne, hk⟩ := hk
    have h1' : k' ∉ (insertK k st).visited := by
      simp only [insertK, Finset.mem_insert]
      push_neg
      exact ⟨fun he => hne he.symm, h1⟩
    rw [visitKey, if_neg h1', visitKey, if_neg h1]
    simp only [insertK, Trav.mk.injEq]
    exact ⟨Finset.Insert.comm _ _ _, Finset.Insert.comm _ _ _⟩

/-- `visitIdent` only grows `visited`. -/
theorem visitIdent_mono (st : Trav) (ri : ResourceIdentifierObject) :
    st.visited ⊆ (visitIdent st ri).visited :=
  visitKey_mono st _

/-- `visitIdent` commutes with pre-inserting an unreached key. -/
theorem visitIdent_comm (st : Trav) (ri : ResourceIdentifierObject)
    (k : String × Option String) (h : k ∉ (visitIdent st ri).visited) :
    visitIdent (insertK k st) ri = insertK k (visitIdent st ri) :=
  visitKey_comm st _ k h

/-- `visitRel` commutes with pre-inserting an unreached key. -/
theorem visitRel_comm (st : Trav) (rel : RelationshipObject)
    (k : String × Option String) (h : k ∉ (visitRel st rel).visited) :
    visitRel (insertK k st) rel = insertK k (visitRel st rel) := by
  simp only [visitRel] at h ⊢
  split_ifs at h ⊢
  · exact foldl_insertK_comm visitIdent visitIdent_mono
      (fun st' ri k' hk' => visitIdent_comm st' ri k' hk') _ st k h
  · rfl

/-- `visitResource` commutes with pre-inserting an unreached key. -/
theorem visitResource_comm (st : Trav) (r : ResourceObject)
    (k : String × Option String) (h : k ∉ (visitResource st r).visited) :
    visitResource (insertK k st) r = insertK k (visitResource st r) := by
  by_cases h1 : keyOfRes r ∈ st.visited
  · have h1' : keyOfRes r ∈ (insertK k st).visited := Finset.mem_insert_of_mem h1
    rw [visitResource, if_pos h1', visitResource, if_pos h1]
  · have hvm : insert (keyOfRes r) st.visited ⊆ (visitResource st r).visited := by
      rw [visitResource, if_neg h1]
      split_ifs
      · exact foldl_trav_mono (fun s (p : String × RelationshipObject) => visitRel s p.2)
          (fun st' p => visitRel_mono st' p.2) (relsOf r)
          ⟨insert (keyOfRes r) st.visited, insert (keyOfRes r) st.reachable⟩
      · exact Finset.Subset.refl _
    have hk2 : k ∉ insert (keyOfRes r) st.visited := fun hm => h (hvm hm)
    simp only [Finset.mem_insert] at hk2
    push_neg at hk2
    obtain ⟨hne, hk⟩ := hk2
    have h1' : keyOfRes r ∉ (insertK k st).visited := by
      simp only [insertK, Finset.mem_insert]
      push_neg
      exact ⟨fun he => hne he.symm, h1⟩
    have hswap : (⟨insert (keyOfRes r) (insert k st.visited),
        insert (keyOfRes r) (insert k st.reachable)⟩ : Trav) =
        insertK k ⟨insert (keyOfRes r) st.visited, insert (keyOfRes r) st.reachable⟩ := by
      simp only [insertK, Trav.mk.injEq]
      exact ⟨Finset.Insert.comm _ _ _, Finset.Insert.comm _ _ _⟩
    rw [visitResource, if_neg h1', visitResource, if_neg h1]
    simp only [insertK]
    split_ifs with h2
    · rw [hswap]
      refine foldl_insertK_comm _
        (fun st' (p : String × RelationshipObject) => visitRel_mono st' p.2)
        (fun st' p k' hk' => visitRel_comm st' p.2 k' hk') _ _ k ?_
      rw [visitResource, if_neg h1, if_pos h2] at h
      exact h
    · exact hswap

/-- `visitItem` commutes with pre-inserting an unreached key. -/
theorem visitItem_comm (st : Trav) (x : DataItem)
    (k : String × Option String) (h : k ∉ (visitItem st x).visited) :
    visitItem (insertK k st) x = insertK k (visitItem st x) := by
  rcases x with r | ri
  · exact visitResource_comm st r k h
  · exact visitKey_comm st _ k h

/-- `visitItems` commutes with pre-inserting an unreached key. -/
theorem visitItems_comm (xs : List DataItem) (st : Trav)
    (k : String × Option String) (h : k ∉ (visitItems st xs).visited) :
    visitItems (insertK k st) xs = insertK k (visitItems st xs) := by
  rw [visitItems] at h ⊢
  exact foldl_insertK_comm _ visitItem_mono
    (fun st' x k' hk' => visitItem_comm st' x k' hk') xs st k h

/-! ### Extending a primary-data resource with one relationship -/

/-- Key sets of concatenated dictionaries. -/
theorem keysOf_append {α : Type} (l₁ l₂ : List (String × α)) :
    keysOf (l₁ ++ l₂) = keysOf l₁ ∪ keysOf l₂ := by
  simp [keysOf]

/-- Visiting the extended resource first visits `r0` exactly as before and
then visits the identifier of `R` (the appended relationship is traversed
last). -/
theorem visitResource_extendRes (st : Trav) (r0 R : ResourceObject) (n : String)
    (h : keyOfRes r0 ∉ st.visited) :
    visitResource st (extendRes r0 n R) =
      visitIdent (visitResource st r0) (identOfRes R) := by
  have h' : keyOfRes (extendRes r0 n R) ∉ st.visited := h
  have ht : truthyDict (extendRes r0 n R).relationships = true := by
    simp [extendRes, truthyDict]
  have hkey : keyOfRes (extendRes r0 n R) = keyOfRes r0 := rfl
  rw [visitResource, if_neg h', if_pos ht]
  have hrels : relsOf (extendRes r0 n R) = relsOf r0 ++ [(n, relTo R)] := rfl
  rw [hrels, List.foldl_append]
  simp only [hkey]
  have hone : ∀ st' : Trav,
      List.foldl (fun s (p : String × RelationshipObject) => visitRel s p.2) st'
        [(n, relTo R)] = visitIdent st' (identOfRes R) := by
    intro st'
    simp only [List.foldl_cons, List.foldl_nil]
    rw [visitRel]
    simp [truthyRelData, relTo, relDataIdents]
  rw [hone]
  congr 1
  rw [visitResource, if_neg h]
  rcases hrel : r0.relationships with _ | l
  · simp [truthyDict, hrel, relsOf]
  · rcases l with _ | ⟨p, ps⟩
    · simp [truthyDict, hrel, relsOf]
    · simp [truthyDict, hrel, relsOf]

/-- The reachable set of the extended document is the original reachable set
plus the key of `R`, provided `R` was unreachable before. -/
theorem reachable_extendDoc (d : Document) (r0 : ResourceObject)
    (rest : List DataItem) (n : String) (R : ResourceObject)
    (hdata : d.data = .list (.res r0 :: rest))
    (hRun : keyOfRes R ∉ reachableSet d.data) :
    reachableSet (extendDoc d r0 rest n R).data =
      insert (keyOfRes R) (reachableSet d.data) := by
  have hd : traverseData d.data =
      visitItems (visitResource ⟨∅, ∅⟩ r0) rest := by
    rw [hdata, traverseData]
    rfl
  have hA : keyOfRes R ∉ (visitResource ⟨∅, ∅⟩ r0).visited := by
    intro hmem
    apply hRun
    rw [reachableSet, ← traverseData_eq, hd]
    exact visitItems_mono _ rest hmem
  have hfin : keyOfRes R ∉ (visitItems (visitResource ⟨∅, ∅⟩ r0) rest).visited := by
    rw [← hd, traverseData_eq]
    exact hRun
  have h0 : keyOfRes r0 ∉ (⟨∅, ∅⟩ : Trav).visited := by simp
  have hext : traverseData (extendDoc d r0 rest n R).data =
      visitItems (visitIdent (visitResource ⟨∅, ∅⟩ r0) (identOfRes R)) rest := by
    rw [extendDoc, traverseData]
    show visitItems (visitItem ⟨∅, ∅⟩ (.res (extendRes r0 n R))) rest = _
    rw [visitItem, visitResource_extendRes _ _ _ _ h0]
  have hkeyR : keyOfIdentObj (identOfRes R) = keyOfRes R := rfl
  have hid : visitIdent (visitResource ⟨∅, ∅⟩ r0) (identOfRes R) =
      insertK (keyOfRes R) (visitResource ⟨∅, ∅⟩ r0) := by
    rw [visitIdent, hkeyR, visitKey, if_neg hA]
    rfl
  rw [reachableSet, hext, hid, visitItems_comm _ _ _ hfin]
  rw [reachableSet, hd]
  rfl

/-! ### Validator facts about the extended resource -/

/-- Step-by-step characterization of `validate_resource_object`. -/
theorem ro_ok_iff_steps {r : ResourceObject} :
    validate_resource_object r = .ok () ↔
      roTypeCheck r = .ok () ∧ roIdStrCheck r = .ok () ∧ roIdentityCheck r = .ok ()
        ∧ roConflictCheck r = .ok () ∧ roAttrCheck r = .ok () ∧ roRelCheck r = .ok ()
        ∧ roLinksCheck r = .ok () := by
  rw [validate_resource_object, seqOk, seqOk, seqOk, seqOk, seqOk, seqOk]

/-- A valid resource's identifier is a valid identifier object. -/
theorem identOfRes_ok {R : ResourceObject}
    (h : validate_resource_object R = .ok ()) :
    validate_id_or_lid (identOfRes R) = .ok () := by
  obtain ⟨-, hstr, hident, -⟩ := ro_ok_iff_steps.mp h
  rw [roIdStrCheck] at hstr
  rw [roIdentityCheck] at hident
  simp only [validate_id_or_lid, identOfRes]
  split_ifs with h1 h2 h3
  · rw [if_pos h1] at hident
    exact absurd hident (by simp)
  · rw [if_pos h2] at hstr
    exact absurd hstr (by simp)
  · rw [if_neg h2, if_pos h3] at hstr
    exact absurd hstr (by simp)
  · rfl

/-- The appended relationship is itself a valid relationship with valid
parts. -/
theorem relTo_partsOk {R : ResourceObject}
    (h : validate_resource_object R = .ok ()) :
    relPartsOk (relTo R) = .ok () := by
  rw [relPartsOk, seqOk, seqOk]
  refine ⟨?_, rfl, rfl⟩
  show allOk validate_id_or_lid [identOfRes R] = .ok ()
  rw [allOk, seqOk]
  exact ⟨identOfRes_ok h, rfl⟩

/-- The conflict check still passes after appending a relationship whose
name clashes with no attribute key. -/
theorem roConflict_extend {r0 : ResourceObject} {n : String} (R : ResourceObject)
    (h : roConflictCheck r0 = .ok ())
    (hn : n ∉ keysOf ((r0.attributes).getD [])) :
    roConflictCheck (extendRes r0 n R) = .ok () := by
  have hrels : relsOf (extendRes r0 n R) = relsOf r0 ++ [(n, relTo R)] := rfl
  have hsingle : keysOf [(n, relTo R)] = {n} := by simp [keysOf]
  have h2 : keysOf ((r0.attributes).getD []) ∩ keysOf [(n, relTo R)] = ∅ := by
    rw [hsingle, Finset.inter_comm, Finset.singleton_inter_of_not_mem hn]
  have h1 : keysOf ((r0.attributes).getD []) ∩ keysOf (relsOf r0) = ∅ := by
    rcases hrl : r0.relationships with _ | l
    · simp [relsOf, hrl, keysOf]
    · rcases l with _ | ⟨p, ps⟩
      · simp [relsOf, hrl, keysOf]
      · by_cases ha : truthyDict r0.attributes = true
        · simp only [roConflictCheck] at h
          have htr : truthyDict r0.relationships = true := by
            simp [hrl, truthyDict]
          rw [if_pos (by rw [ha, htr]; rfl)] at h
          split_ifs at h with hx hy
          · push_neg at hy
            exact not_not.mp (by simpa using hy)
        · rcases hat : r0.attributes with _ | al
          · simp [hat, keysOf]
          · rw [hat] at ha
            simp only [truthyDict, Bool.not_eq_true] at ha
            have hal : al = [] := by
              rcases al with _ | _
              · rfl
              · simp at ha
            subst hal
            simp [keysOf]
  have hcommon : keysOf ((r0.attributes).getD []) ∩ keysOf (relsOf r0 ++ [(n, relTo R)]) = ∅ := by
    rw [keysOf_append, Finset.inter_union_distrib_left, h1, h2, Finset.union_idempotent]
  have hattr : (extendRes r0 n R).attributes = r0.attributes := rfl
  simp only [roConflictCheck, hattr, hrels]
  split_ifs with h1' h2' h3'
  · rw [hcommon] at h2'
    simp at h2'
  · rw [hcommon] at h3'
    simp at h3'
  · rfl
  · rfl

/-- The relationship-key reserved check still passes after appending a
non-reserved relationship name. -/
theorem roRel_extend {r0 : ResourceObject} {n : String} (R : ResourceObject)
    (h : roRelCheck r0 = .ok ()) (hn : n ∉ reservedKeys) :
    roRelCheck (extendRes r0 n R) = .ok () := by
  have ht : truthyDict (extendRes r0 n R).relationships = true := by
    simp [extendRes, truthyDict]
  have hrels : relsOf (extendRes r0 n R) = relsOf r0 ++ [(n, relTo R)] := rfl
  have h2 : reservedKeys ∩ keysOf [(n, relTo R)] = ∅ := by
    have hsingle : keysOf [(n, relTo R)] = {n} := by simp [keysOf]
    rw [hsingle, Finset.inter_comm, Finset.singleton_inter_of_not_mem hn]
  have h1 : reservedKeys ∩ keysOf (relsOf r0) = ∅ := by
    rcases hrl : r0.relationships with _ | l
    · simp [relsOf, hrl, keysOf]
    · rcases l with _ | ⟨p, ps⟩
      · simp [relsOf, hrl, keysOf]
      · simp only [roRelCheck] at h
        have htr : truthyDict r0.relationships = true := by
          simp [hrl, truthyDict]
        rw [if_pos htr] at h
        split_ifs at h with hx
        · push_neg at hx
          exact not_not.mp (by simpa using hx)
  have hres : reservedKeys ∩ keysOf (relsOf r0 ++ [(n, relTo R)]) = ∅ := by
    rw [keysOf_append, Finset.inter_union_distrib_left, h1, h2, Finset.union_idempotent]
  simp only [roRelCheck, hrels, if_pos ht]
  rw [hres]
  simp

/-- The extended resource still validates when the new relationship name is
fresh for the attributes and not reserved. -/
theorem validate_ro_extend {r0 : ResourceObject} {n : String} {R : ResourceObject}
    (h : validate_resource_object r0 = .ok ())
    (hn1 : n ∉ keysOf ((r0.attributes).getD [])) (hn2 : n ∉ reservedKeys) :
    validate_resource_object (extendRes r0 n R) = .ok () := by
  obtain ⟨h1, h2, h3, h4, h5, h6, h7⟩ := ro_ok_iff_steps.mp h
  refine ro_ok_iff_steps.mpr ⟨h1, h2, h3, roConflict_extend R h4 hn1, h5,
    roRel_extend R h6 hn2, h7⟩

/-- The extended resource's construction-time validation. -/
theorem roPartsOk_extend {r0 : ResourceObject} {n : String} {R : ResourceObject}
    (h0 : roPartsOk r0 = .ok ()) (hR : validate_resource_object R = .ok ())
    (hn1 : n ∉ keysOf ((r0.attributes).getD [])) (hn2 : n ∉ reservedKeys) :
    roPartsOk (extendRes r0 n R) = .ok () := by
  rw [roPartsOk, seqOk, seqOk] at h0 ⊢
  obtain ⟨ha, hb, hc⟩ := h0
  refine ⟨?_, hb, validate_ro_extend hc hn1 hn2⟩
  rw [allOk_ok_iff] at ha ⊢
  intro rel hrel
  have hrels : relsOf (extendRes r0 n R) = relsOf r0 ++ [(n, relTo R)] := rfl
  rw [hrels] at hrel
  simp only [List.map_append, List.mem_append, List.map_cons, List.map_nil,
    List.mem_singleton] at hrel
  rcases hrel with hrel | hrel
  · exact ha rel hrel
  · subst hrel
    exact relTo_partsOk hR

/-- A succeeded first step drops out of a sequence. -/
theorem seq_ok_left {ε : Type} {x y : Except ε Unit} (h : x = .ok ()) :
    (do x; y) = y := by
  rw [h]; rfl

/-- A failed first step short-circuits a sequence. -/
theorem seq_error_left {ε : Type} {x y : Except ε Unit} {e : ε} (h : x = .error e) :
    (do x; y) = .error e := by
  rw [h]; rfl

/-- Membership of a resource's key in the included-keys set. -/
theorem keyOfRes_mem_includedKeys {R : ResourceObject} {inc : List ResourceObject}
    (hR : R ∈ inc) : keyOfRes R ∈ includedKeys inc := by
  rw [includedKeys, List.mem_toFinset]
  exact List.mem_map_of_mem keyOfRes hR

/-! ## C1 — reachability correctness of document construction -/

/-- C1: for a document whose earlier validation steps pass, an included
resource `R` whose identity key is not reached by the relationship traversal
from the primary data makes construction raise the unreachable-included
error, reporting exactly the set of *all* unreachable identity keys in a
single error; and when `R` accounts for the whole unreachable set, the same
document extended with a relationship from a primary-data resource to `R`
constructs successfully.  (The fresh-name side conditions `hn1`-`hn3` state
that the new relationship name is addable to `r0`'s dictionaries.) -/
theorem c1_reachability_correctness
    (d : Document) (inc : List ResourceObject) (r0 : ResourceObject)
    (rest : List DataItem) (R : ResourceObject) (relName : String)
    (hdata : d.data = .list (.res r0 :: rest))
    (herr : d.errors = Option.none)
    (hinc : d.included = Option.some inc)
    (hparts : docPartsOk d = .ok ())
    (hext : docExtCheck d = .ok ())
    (hdup : dupCheckAux ∅ inc = .ok ())
    (hlinks : docLinksCheck d = .ok ())
    (hR : R ∈ inc)
    (hRun : keyOfRes R ∉ reachableSet d.data)
    (hn1 : relName ∉ keysOf ((r0.attributes).getD []))
    (hn2 : relName ∉ reservedKeys)
    (hn3 : relName ∉ keysOf (relsOf r0)) :
    construct_document d =
      .error (.docUnreachableIncluded (includedKeys inc \ reachableSet d.data))
    ∧ keyOfRes R ∈ includedKeys inc \ reachableSet d.data
    ∧ (includedKeys inc \ reachableSet d.data = {keyOfRes R} →
        construct_document (extendDoc d r0 rest relName R) = .ok ()) := by
  have hmem : keyOfRes R ∈ includedKeys inc \ reachableSet d.data :=
    Finset.mem_sdiff.mpr ⟨keyOfRes_mem_includedKeys hR, hRun⟩
  have hne : includedKeys inc \ reachableSet d.data ≠ ∅ :=
    Finset.ne_empty_of_mem hmem
  have hnotnull : d.data.isNull = false := by rw [hdata]; rfl
  refine ⟨?_, hmem, ?_⟩
  · rw [construct_document, seq_ok_left hparts]
    rw [validate_document]
    rw [seq_ok_left (show docDataErrorsCheck d = .ok () by
      simp [docDataErrorsCheck, herr, hnotnull])]
    rw [seq_ok_left (show docNonEmptyCheck d = .ok () by
      simp [docNonEmptyCheck, hnotnull])]
    rw [seq_ok_left (show docIncludedRequiresData d = .ok () by
      simp [docIncludedRequiresData, hnotnull])]
    rw [seq_ok_left hext]
    apply seq_error_left
    rw [docIncludedBlock, hinc]
    show (do dupCheckAux ∅ inc
             if includedKeys inc \ reachableSet d.data ≠ ∅ then _ else _) = _
    rw [seq_ok_left hdup, if_pos hne]
  · intro hSingle
    -- nested validation of the extended document
    have hRvalid : validate_resource_object R = .ok () := by
      rw [docPartsOk, seqOk, seqOk, seqOk] at hparts
      have hincl := hparts.2.1
      rw [hinc] at hincl
      rw [allOk_ok_iff] at hincl
      have hRparts := hincl R hR
      rw [roPartsOk, seqOk, seqOk] at hRparts
      exact hRparts.2.2
    rw [docPartsOk, seqOk, seqOk, seqOk] at hparts
    obtain ⟨hitems, hincl, hjs, hlinkObjs⟩ := hparts
    rw [hdata] at hitems
    have hitems' : itemPartsOk (.res r0) = .ok () ∧
        ∀ x ∈ rest, itemPartsOk x = .ok () := by
      rw [allOk_ok_iff] at hitems
      exact ⟨hitems _ (by simp [PrimaryData.items]),
        fun x hx => hitems x (by simp [PrimaryData.items, hx])⟩
    have hpartsExt : docPartsOk (extendDoc d r0 rest relName R) = .ok () := by
      rw [docPartsOk, seqOk, seqOk, seqOk]
      refine ⟨?_, hincl, hjs, hlinkObjs⟩
      rw [allOk_ok_iff]
      intro x hx
      have hx' : x = DataItem.res (extendRes r0 relName R) ∨ x ∈ rest := by
        simpa [extendDoc, PrimaryData.items] using hx
      rcases hx' with hx' | hx'
      · subst hx'
        exact roPartsOk_extend hitems'.1 hRvalid hn1 hn2
      · exact hitems'.2 x hx'
    rw [construct_document, seq_ok_left hpartsExt]
    have hreach := reachable_extendDoc d r0 rest relName R hdata hRun
    have hempty : includedKeys inc \ reachableSet (extendDoc d r0 rest relName R).data = ∅ := by
      rw [hreach]
      apply Finset.eq_empty_iff_forall_not_mem.mpr
      intro x hx
      rw [Finset.mem_sdiff, Finset.mem_insert] at hx
      obtain ⟨hxi, hxn⟩ := hx
      push_neg at hxn
      obtain ⟨hx1, hx2⟩ := hxn
      have hxm : x ∈ includedKeys inc \ reachableSet d.data :=
        Finset.mem_sdiff.mpr ⟨hxi, hx2⟩
      rw [hSingle] at hxm
      exact hx1 (Finset.mem_singleton.mp hxm)
    rw [validate_document]
    rw [seq_ok_left (show docDataErrorsCheck (extendDoc d r0 rest relName R) = .ok () by
      simp [docDataErrorsCheck, extendDoc, PrimaryData.isNull, herr])]
    rw [seq_ok_left (show docNonEmptyCheck (extendDoc d r0 rest relName R) = .ok () by
      simp [docNonEmptyCheck, extendDoc, PrimaryData.isNull])]
    rw [seq_ok_left (show docIncludedRequiresData (extendDoc d r0 rest relName R) = .ok () by
      simp [docIncludedRequiresData, extendDoc, PrimaryData.isNull])]
    rw [seq_ok_left (show docExtCheck (extendDoc d r0 rest relName R) = .ok () from hext)]
    rw [seq_ok_left (show docIncludedBlock (extendDoc d r0 rest relName R) = .ok () by
      rw [docIncludedBlock]
      rw [show (extendDoc d r0 rest relName R).included = Option.some inc from hinc]
      show (do dupCheckAux ∅ inc
               if includedKeys inc \
                   reachableSet (extendDoc d r0 rest relName R).data ≠ ∅ then _
               else _) = _
      rw [seq_ok_left hdup, if_neg (by rw [hempty]; simp)])]
    exact hlinks

/-- C1 witness: the concrete scenario of the specification — `people/99`
included but unlinked raises the unreachable error naming exactly
`{("people", "99")}`, and adding an `"unlinked"` relationship from the
`articles` resource to it makes the document construct. -/
theorem c1_reachability_correctness_witness :
    construct_document specDocUnreachable =
      .error (.docUnreachableIncluded {("people", Option.some "99")})
    ∧ construct_document
        (extendDoc specDocUnreachable specArticles [] "unlinked" specPeople99) =
      .ok () := by
  have h := c1_reachability_correctness specDocUnreachable [specPeople9, specPeople99]
    specArticles [] specPeople99 "unlinked" rfl rfl rfl (by decide) (by decide)
    (by decide) (by decide) (List.mem_cons_of_mem _ (List.mem_cons_self _ _))
    (by decide) (by decide) (by decide) (by decide)
  have hU : includedKeys [specPeople9, specPeople99] \
      reachableSet specDocUnreachable.data =
      {(("people" : String), Option.some "99")} := by decide
  refine ⟨?_, h.2.2 (by decide)⟩
  rw [h.1, hU]

/-! ## C2 — cycle safety and termination -/

/-- C2: a document whose relationship graph contains a cycle — `A`
references `B`, `B` references `A`, both listed in `included` — validates
successfully.  Termination is witnessed by the traversal being a total Lean
function (`traverseData` is structurally recursive; the `visited` set keeps
the Python recursion from revisiting a node).  The hypotheses state
well-formedness of the two identities (non-empty, pydantic `NonEmptyStr`)
and their distinctness. -/
theorem c2_cycle_safety (tA iA tB iB : String) (htA : tA ≠ "") (hiA : iA ≠ "")
    (htB : tB ≠ "") (hiB : iB ≠ "")
    (hne : ((tA, Option.some iA) : String × Option String) ≠ (tB, Option.some iB)) :
    construct_document (cycleDocument tA iA tB iB) = .ok () := by
  have hkBneA : ((tB, Option.some iB) : String × Option String) ≠ (tA, Option.some iA) :=
    fun hcontr => hne hcontr.symm
  -- identity keys
  have hkeyA : keyOfRes (cycleResA tA iA tB iB) = (tA, Option.some iA) := by
    simp [cycleResA, keyOfRes, identKey, truthyStr_some hiA]
  have hkeyB : keyOfRes (cycleResB tA iA tB iB) = (tB, Option.some iB) := by
    simp [cycleResB, keyOfRes, identKey, truthyStr_some hiB]
  have hkeyIdA : keyOfIdentObj (identTo tA iA) = (tA, Option.some iA) := by
    simp [identTo, keyOfIdentObj, identKey, truthyStr_some hiA]
  have hkeyIdB : keyOfIdentObj (identTo tB iB) = (tB, Option.some iB) := by
    simp [identTo, keyOfIdentObj, identKey, truthyStr_some hiB]
  -- nested validation
  have hidA : validate_id_or_lid (identTo tA iA) = .ok () := by
    simp [validate_id_or_lid, identTo, truthyStr_some hiA, hiA]
  have hidB : validate_id_or_lid (identTo tB iB) = .ok () := by
    simp [validate_id_or_lid, identTo, truthyStr_some hiB, hiB]
  have hrelA : relPartsOk (relToKey tB iB) = .ok () := by
    rw [relPartsOk, seqOk, seqOk]
    refine ⟨?_, rfl, rfl⟩
    show allOk validate_id_or_lid [identTo tB iB] = .ok ()
    rw [allOk, seqOk]
    exact ⟨hidB, rfl⟩
  have hrelB : relPartsOk (relToKey tA iA) = .ok () := by
    rw [relPartsOk, seqOk, seqOk]
    refine ⟨?_, rfl, rfl⟩
    show allOk validate_id_or_lid [identTo tA iA] = .ok ()
    rw [allOk, seqOk]
    exact ⟨hidA, rfl⟩
  have hroA : validate_resource_object (cycleResA tA iA tB iB) = .ok () := by
    refine ro_ok_iff_steps.mpr ⟨?_, ?_, ?_, ?_, ?_, ?_, ?_⟩
    · simp [roTypeCheck, cycleResA, htA]
    · simp [roIdStrCheck, cycleResA, hiA]
    · simp [roIdentityCheck, cycleResA, truthyStr_some hiA]
    · simp [roConflictCheck, cycleResA, truthyDict]
    · simp [roAttrCheck, cycleResA, truthyDict]
    · rw [roRelCheck, if_pos (by simp [cycleResA, truthyDict])]
      rw [show keysOf (relsOf (cycleResA tA iA tB iB)) = {"b"} by
        simp [cycleResA, relsOf, keysOf]]
      decide
    · simp [roLinksCheck, cycleResA, truthyLinks]
  have hroB : validate_resource_object (cycleResB tA iA tB iB) = .ok () := by
    refine ro_ok_iff_steps.mpr ⟨?_, ?_, ?_, ?_, ?_, ?_, ?_⟩
    · simp [roTypeCheck, cycleResB, htB]
    · simp [roIdStrCheck, cycleResB, hiB]
    · simp [roIdentityCheck, cycleResB, truthyStr_some hiB]
    · simp [roConflictCheck, cycleResB, truthyDict]
    · simp [roAttrCheck, cycleResB, truthyDict]
    · rw [roRelCheck, if_pos (by simp [cycleResB, truthyDict])]
      rw [show keysOf (relsOf (cycleResB tA iA tB iB)) = {"a"} by
        simp [cycleResB, relsOf, keysOf]]
      decide
    · simp [roLinksCheck, cycleResB, truthyLinks]
  have hpartsA : roPartsOk (cycleResA tA iA tB iB) = .ok () := by
    rw [roPartsOk, seqOk, seqOk]
    refine ⟨?_, rfl, hroA⟩
    show allOk relPartsOk [relToKey tB iB] = .ok ()
    rw [allOk, seqOk]
    exact ⟨hrelA, rfl⟩
  have hpartsB : roPartsOk (cycleResB tA iA tB iB) = .ok () := by
    rw [roPartsOk, seqOk, seqOk]
    refine ⟨?_, rfl, hroB⟩
    show allOk relPartsOk [relToKey tA iA] = .ok ()
    rw [allOk, seqOk]
    exact ⟨hrelB, rfl⟩
  have hdocparts : docPartsOk (cycleDocument tA iA tB iB) = .ok () := by
    rw [docPartsOk, seqOk, seqOk, seqOk]
    refine ⟨?_, ?_, rfl, rfl⟩
    · show allOk itemPartsOk [.res (cycleResA tA iA tB iB)] = .ok ()
      rw [allOk, seqOk]
      exact ⟨hpartsA, rfl⟩
    · show allOk roPartsOk [cycleResA tA iA tB iB, cycleResB tA iA tB iB] = .ok ()
      rw [allOk, seqOk, allOk, seqOk]
      exact ⟨hpartsA, hpartsB, rfl⟩
  -- the traversal reaches both keys
  have hreach : reachableSet (cycleDocument tA iA tB iB).data =
      insert (tB, Option.some iB) (insert (tA, Option.some iA) ∅) := by
    rw [reachableSet]
    show (visitItems ⟨∅, ∅⟩ [.res (cycleResA tA iA tB iB)]).reachable = _
    rw [visitItems]
    simp only [List.foldl_cons, List.foldl_nil]
    show (visitResource ⟨∅, ∅⟩ (cycleResA tA iA tB iB)).reachable = _
    rw [visitResource, if_neg (by simp),
      if_pos (show truthyDict (cycleResA tA iA tB iB).relationships = true by
        simp [cycleResA, truthyDict])]
    rw [show relsOf (cycleResA tA iA tB iB) = [("b", relToKey tB iB)] from rfl]
    simp only [List.foldl_cons, List.foldl_nil]
    rw [visitRel, if_pos (show truthyRelData (relToKey tB iB).data = true from rfl)]
    rw [show relDataIdents (relToKey tB iB).data = [identTo tB iB] from rfl]
    simp only [List.foldl_cons, List.foldl_nil]
    rw [visitIdent, visitKey, hkeyIdB]
    rw [if_neg (by simp [hkeyA, hkBneA])]
    simp [hkeyA]
  have hdup : dupCheckAux ∅ [cycleResA tA iA tB iB, cycleResB tA iA tB iB] = .ok () := by
    rw [dupCheckAux, if_neg (by simp)]
    rw [dupCheckAux, if_neg (by simp [hkeyA, hkeyB, hkBneA])]
    rfl
  have hunreach : includedKeys [cycleResA tA iA tB iB, cycleResB tA iA tB iB] \
      reachableSet (cycleDocument tA iA tB iB).data = ∅ := by
    rw [hreach]
    rw [show includedKeys [cycleResA tA iA tB iB, cycleResB tA iA tB iB] =
      insert (tA, Option.some iA) (insert (tB, Option.some iB) ∅) by
        simp [includedKeys, hkeyA, hkeyB]]
    apply Finset.eq_empty_iff_forall_not_mem.mpr
    intro x hx
    rw [Finset.mem_sdiff] at hx
    obtain ⟨hx1, hx2⟩ := hx
    simp only [Finset.mem_insert, Finset.not_mem_empty, or_false] at hx1 hx2
    tauto
  have hincluded : docIncludedBlock (cycleDocument tA iA tB iB) = .ok () := by
    rw [docIncludedBlock]
    rw [show (cycleDocument tA iA tB iB).included =
      Option.some [cycleResA tA iA tB iB, cycleResB tA iA tB iB] from rfl]
    show (do dupCheckAux ∅ [cycleResA tA iA tB iB, cycleResB tA iA tB iB]
             if includedKeys [cycleResA tA iA tB iB, cycleResB tA iA tB iB] \
                 reachableSet (cycleDocument tA iA tB iB).data ≠ ∅ then _
             else _) = _
    rw [seq_ok_left hdup, if_neg (by rw [hunreach]; simp)]
  rw [construct_document, seq_ok_left hdocparts, validate_document]
  rw [seq_ok_left (show docDataErrorsCheck (cycleDocument tA iA tB iB) = .ok () from rfl)]
  rw [seq_ok_left (show docNonEmptyCheck (cycleDocument tA iA tB iB) = .ok () from rfl)]
  rw [seq_ok_left (show docIncludedRequiresData (cycleDocument tA iA tB iB) = .ok () from rfl)]
  rw [seq_ok_left (show docExtCheck (cycleDocument tA iA tB iB) = .ok () from rfl)]
  rw [seq_ok_left hincluded]
  rfl

/-- C2 witness: the cycle scenario at concrete types and ids. -/
theorem c2_cycle_safety_witness :
    construct_document (cycleDocument "articles" "1" "people" "9") = .ok () := by
  exact c2_cycle_safety "articles" "1" "people" "9" (by decide) (by decide)
    (by decide) (by decide) (by decide)

/-- C10 witness: the general conjunct applied at a concrete relationship. -/
theorem c10_empty_collections_absent_witness :
    validate_relationship
      { links := Option.some [], data := Option.none, meta := Option.some [],
        extensionMembers := [("x", PyVal.int 2)] } = .error .relEmpty := by
  exact c10_empty_collections_absent.2.2
    { links := Option.some [], data := Option.none, meta := Option.some [],
      extensionMembers := [("x", PyVal.int 2)] } (by decide) (by decide) (by decide)

end Builder

/-! ## Serialization round trip (C9) -/

namespace Classes

/-- Sequencing a successful `Except` computation reduces to its continuation. -/
theorem bindOkC {α β : Type} {x : Except CErr α} {a : α} {f : α → Except CErr β}
    (h : x = .ok a) : (x >>= f) = f a := by rw [h]; rfl

/-- `upsert` on a key not already present appends. -/
theorem upsert_fresh {kvs : List (String × CVal)} {k : String} {v : CVal}
    (h : kvs.any (fun p => p.1 == k) = false) :
    upsert kvs k v = kvs ++ [(k, v)] := by
  rw [upsert, if_neg (by simp [h])]

/-- Folding `upsert` over entries with duplicate-free keys fresh to the
accumulator is concatenation. -/
theorem foldl_upsert_fresh :
    ∀ (ps acc : List (String × CVal)),
      (∀ p ∈ ps, acc.any (fun q => q.1 == p.1) = false) →
      (ps.map Prod.fst).Nodup →
      ps.foldl (fun a p => upsert a p.1 p.2) acc = acc ++ ps := by
  intro ps
  induction ps with
  | nil => intro acc _ _; simp
  | cons p ps ih =>
    intro acc hfresh hnodup
    rw [List.map_cons, List.nodup_cons] at hnodup
    have hfresh2 : ∀ q ∈ ps, (acc ++ [p]).any (fun r => r.1 == q.1) = false := by
      intro q hq
      have h1 : acc.any (fun r => r.1 == q.1) = false :=
        hfresh q (List.mem_cons_of_mem p hq)
      have h2 : ¬ p.1 = q.1 := fun he =>
        hnodup.1 (he ▸ List.mem_map_of_mem Prod.fst hq)
      simp [List.any_append, h1, h2]
    rw [List.foldl_cons, upsert_fresh (hfresh p (List.mem_cons_self p ps)),
      ih (acc ++ [p]) hfresh2 hnodup.2, List.append_assoc]
    rfl

/-- No entry carrying one of the constructor's named parameters occurs among
extension members. -/
theorem ext_find_none {ext : List (String × CVal)} {k : String}
    (hk : fixedDocKeys.contains k = true)
    (hext : ∀ p ∈ ext, fixedDocKeys.contains p.1 = false) :
    ext.find? (fun p => p.1 == k) = Option.none := by
  apply List.find?_eq_none.mpr
  intro x hx hbe
  have he : x.1 = k := by simpa using hbe
  have hf := hext x hx
  rw [he] at hf
  rw [hf] at hk
  cases hk

/-- Extension members survive the non-fixed-key filter unchanged. -/
theorem ext_filter_self {ext : List (String × CVal)}
    (hext : ∀ p ∈ ext, fixedDocKeys.contains p.1 = false) :
    ext.filter (fun p => !fixedDocKeys.contains p.1) = ext := by
  apply List.filter_eq_self.mpr
  intro a ha
  show (!fixedDocKeys.contains a.1) = true
  rw [hext a ha]
  rfl

/-- Truthy values are not `None`. -/
theorem isVNone_of_truthyC {v : CVal} (h : truthyC v = true) : isVNone v = false := by
  cases v <;> simp_all [truthyC, isVNone]

/-- C9 (amended): on the family of errors documents — no primary data, a
non-empty errors list, `meta` and `jsonapi` each absent or truthy, extension
members with duplicate-free non-constructor-parameter keys and non-`None`
values, and every serialized value free of identifier objects (so the
`json.dumps`/`json.loads` string layer is the identity) — deserializing the
serialization reproduces the document exactly. -/
theorem c9_roundtrip_amended (es : List CVal) (meta js : CVal)
    (ext : List (String × CVal))
    (hes : es ≠ [])
    (hmeta : meta = CVal.vnone ∨ truthyC meta = true)
    (hjs : js = CVal.vnone ∨ truthyC js = true)
    (hextKeys : ∀ p ∈ ext, fixedDocKeys.contains p.1 = false)
    (hextVals : ∀ p ∈ ext, isVNone p.2 = false)
    (hextNodup : (ext.map Prod.fst).Nodup)
    (hpure1 : ¬ HasIdentObj (CVal.vlist es)) (hpure2 : ¬ HasIdentObj meta)
    (hpure3 : ¬ HasIdentObj js) (hpure4 : ∀ p ∈ ext, ¬ HasIdentObj p.2) :
    roundTrip (errorsDoc es meta js ext) = .ok (errorsDoc es meta js ext) := by
  have hesb : es.isEmpty = false := by
    cases es with
    | nil => exact absurd rfl hes
    | cons a t => rfl
  have hval : cdocValidate (errorsDoc es meta js ext) = .ok () := by
    rw [cdocValidate]
    rw [if_neg (by simp [errorsDoc])]
    rw [if_neg (by simp [errorsDoc, truthyC, hesb])]
    rw [if_neg (by simp [errorsDoc, truthyC])]
    rfl
  have hval2 := hval
  simp only [errorsDoc] at hval2
  have hq : ∀ k, k ∈ ext.map Prod.fst → fixedDocKeys.contains k = true → False := by
    intro k hk hfix
    obtain ⟨p, hp, rfl⟩ := List.mem_map.mp hk
    rw [hextKeys p hp] at hfix
    cases hfix
  have hnodupL : ((([("data", CVal.vnone), ("errors", CVal.vlist es),
        ("meta", meta)] ++ ext ++ [("included", CVal.vnone),
        ("links", CVal.vnone), ("jsonapi", js)]).map Prod.fst)).Nodup := by
    simp only [List.map_append, List.map_cons, List.map_nil]
    rw [List.nodup_append, List.nodup_append]
    refine ⟨⟨by decide, hextNodup, ?_⟩, by decide, ?_⟩
    · intro a ha hb
      simp only [List.mem_cons, List.not_mem_nil, or_false] at ha
      rcases ha with rfl | rfl | rfl <;> exact hq _ hb (by decide)
    · intro a ha hb
      simp only [List.mem_cons, List.not_mem_nil, or_false] at hb
      rw [List.mem_append] at ha
      rcases ha with ha | ha
      · rcases hb with rfl | rfl | rfl <;> exact absurd ha (by decide)
      · exact hq _ ha (by rcases hb with rfl | rfl | rfl <;> decide)
  have hfold : (([("data", CVal.vnone), ("errors", CVal.vlist es),
        ("meta", meta)] ++ ext ++ [("included", CVal.vnone),
        ("links", CVal.vnone), ("jsonapi", js)]).foldl
          (fun acc p => upsert acc p.1 p.2) []) =
      [("data", CVal.vnone), ("errors", CVal.vlist es), ("meta", meta)]
        ++ ext ++ [("included", CVal.vnone), ("links", CVal.vnone),
          ("jsonapi", js)] := by
    have h := foldl_upsert_fresh
      ([("data", CVal.vnone), ("errors", CVal.vlist es), ("meta", meta)]
        ++ ext ++ [("included", CVal.vnone), ("links", CVal.vnone),
          ("jsonapi", js)]) []
      (fun p _ => rfl) hnodupL
    simpa using h
  have hfilter := ext_filter_self hextKeys
  have hef : ext.filter (fun p => !isVNone p.2) = ext :=
    List.filter_eq_self.mpr (fun a ha => by
      show (!isVNone a.2) = true
      rw [hextVals a ha]
      rfl)
  have hfData := @ext_find_none ext "data" (by decide) hextKeys
  have hfMeta := @ext_find_none ext "meta" (by decide) hextKeys
  have hfJs := @ext_find_none ext "jsonapi" (by decide) hextKeys
  have hfLinks := @ext_find_none ext "links" (by decide) hextKeys
  have hfInc := @ext_find_none ext "included" (by decide) hextKeys
  have hvn : isVNone CVal.vnone = true := rfl
  have hvl : isVNone (CVal.vlist es) = false := rfl
  have htde : truthyC CVal.vnone = false := rfl
  have htre : truthyC (CVal.vlist es) = true := by
    show (!es.isEmpty) = true
    rw [hesb]
    rfl
  rcases hmeta with hm | hm
  · subst hm
    rcases hjs with hj | hj
    · subst hj
      have htod : cToDict (errorsDoc es CVal.vnone CVal.vnone ext) =
          .ok (("errors", CVal.vlist es) :: ext) := by
        simp only [cToDict, errorsDoc, hval2, htde, htre, Bool.not_false,
          Bool.not_true, Bind.bind, Except.bind, pure, Except.pure,
          Bool.false_eq_true, if_false, eq_self_iff_true, if_true]
        rw [hfold]
        simp only [List.filter_append, List.filter_cons, List.filter_nil, hvn, hvl,
          Bool.not_true, Bool.not_false, Bool.false_eq_true, if_false,
          eq_self_iff_true, if_true, hef, List.nil_append,
          List.singleton_append, List.append_nil, List.cons_append]
      have hgData : ((("errors", CVal.vlist es) :: ext).find?
          (fun p => p.1 == "data")) = Option.none := hfData
      have hgErr : ((("errors", CVal.vlist es) :: ext).find?
          (fun p => p.1 == "errors")) = Option.some ("errors", CVal.vlist es) := rfl
      have hgMeta : ((("errors", CVal.vlist es) :: ext).find?
          (fun p => p.1 == "meta")) = Option.none := hfMeta
      have hgJs : ((("errors", CVal.vlist es) :: ext).find?
          (fun p => p.1 == "jsonapi")) = Option.none := hfJs
      have hgLinks : ((("errors", CVal.vlist es) :: ext).find?
          (fun p => p.1 == "links")) = Option.none := hfLinks
      have hgInc : ((("errors", CVal.vlist es) :: ext).find?
          (fun p => p.1 == "included")) = Option.none := hfInc
      have hflt : (("errors", CVal.vlist es) :: ext).filter
          (fun p => !fixedDocKeys.contains p.1) = ext := hfilter
      have hfd : cFromDict (("errors", CVal.vlist es) :: ext) =
          .ok (errorsDoc es CVal.vnone CVal.vnone ext) := by
        simp only [cFromDict, hgData, hgErr, hgMeta, hgJs, hgLinks, hgInc, hflt,
          Option.map_none', Option.getD_none, Option.map_some', Option.getD_some]
        rw [hval2]
        rfl
      rw [roundTrip]
      rw [bindOkC htod]
      exact hfd
    · have hjN : isVNone js = false := isVNone_of_truthyC hj
      have htod : cToDict (errorsDoc es CVal.vnone js ext) =
          .ok (("errors", CVal.vlist es) :: (ext ++ [("jsonapi", js)])) := by
        simp only [cToDict, errorsDoc, hval2, htde, htre, Bool.not_false,
          Bool.not_true, Bind.bind, Except.bind, pure, Except.pure, hj,
          Bool.false_eq_true, if_false, eq_self_iff_true, if_true]
        rw [hfold]
        simp only [List.filter_append, List.filter_cons, List.filter_nil, hvn, hvl,
          hjN, Bool.not_true, Bool.not_false, Bool.false_eq_true, if_false,
          eq_self_iff_true, if_true, hef, List.nil_append,
          List.singleton_append, List.append_nil, List.cons_append]
      have hgData : ((("errors", CVal.vlist es) :: (ext ++ [("jsonapi", js)])).find?
          (fun p => p.1 == "data")) = Option.none := by
        show (ext ++ [("jsonapi", js)]).find? (fun p => p.1 == "data") = Option.none
        rw [List.find?_append, hfData]
        rfl
      have hgErr : ((("errors", CVal.vlist es) :: (ext ++ [("jsonapi", js)])).find?
          (fun p => p.1 == "errors")) = Option.some ("errors", CVal.vlist es) := rfl
      have hgMeta : ((("errors", CVal.vlist es) :: (ext ++ [("jsonapi", js)])).find?
          (fun p => p.1 == "meta")) = Option.none := by
        show (ext ++ [("jsonapi", js)]).find? (fun p => p.1 == "meta") = Option.none
        rw [List.find?_append, hfMeta]
        rfl
      have hgJs : ((("errors", CVal.vlist es) :: (ext ++ [("jsonapi", js)])).find?
          (fun p => p.1 == "jsonapi")) = Option.some ("jsonapi", js) := by
        show (ext ++ [("jsonapi", js)]).find? (fun p => p.1 == "jsonapi") =
          Option.some ("jsonapi", js)
        rw [List.find?_append, hfJs]
        rfl
      have hgLinks : ((("errors", CVal.vlist es) :: (ext ++ [("jsonapi", js)])).find?
          (fun p => p.1 == "links")) = Option.none := by
        show (ext ++ [("jsonapi", js)]).find? (fun p => p.1 == "links") = Option.none
        rw [List.find?_append, hfLinks]
        rfl
      have hgInc : ((("errors", CVal.vlist es) :: (ext ++ [("jsonapi", js)])).find?
          (fun p => p.1 == "included")) = Option.none := by
        show (ext ++ [("jsonapi", js)]).find? (fun p => p.1 == "included") = Option.none
        rw [List.find?_append, hfInc]
        rfl
      have hflt : (("errors", CVal.vlist es) :: (ext ++ [("jsonapi", js)])).filter
          (fun p => !fixedDocKeys.contains p.1) = ext := by
        show (ext ++ [("jsonapi", js)]).filter (fun p => !fixedDocKeys.contains p.1) = ext
        rw [List.filter_append, hfilter]
        rw [show List.filter (fun p => !fixedDocKeys.contains p.1)
          [("jsonapi", js)] = [] from rfl, List.append_nil]
      have hfd : cFromDict (("errors", CVal.vlist es) :: (ext ++ [("jsonapi", js)])) =
          .ok (errorsDoc es CVal.vnone js ext) := by
        simp only [cFromDict, hgData, hgErr, hgMeta, hgJs, hgLinks, hgInc, hflt,
          Option.map_none', Option.getD_none, Option.map_some', Option.getD_some]
        rw [hval2]
        rfl
      rw [roundTrip]
      rw [bindOkC htod]
      exact hfd
  · have hmN : isVNone meta = false := isVNone_of_truthyC hm
    rcases hjs with hj | hj
    · subst hj
      have htod : cToDict (errorsDoc es meta CVal.vnone ext) =
          .ok (("errors", CVal.vlist es) :: ("meta", meta) :: ext) := by
        simp only [cToDict, errorsDoc, hval2, htde, htre, Bool.not_false,
          Bool.not_true, Bind.bind, Except.bind, pure, Except.pure, hm,
          Bool.false_eq_true, if_false, eq_self_iff_true, if_true]
        rw [hfold]
        simp only [List.filter_append, List.filter_cons, List.filter_nil, hvn, hvl,
          hmN, Bool.not_true, Bool.not_false, Bool.false_eq_true, if_false,
          eq_self_iff_true, if_true, hef, List.nil_append,
          List.singleton_append, List.append_nil, List.cons_append]
      have hgData : ((("errors", CVal.vlist es) :: ("meta", meta) :: ext).find?
          (fun p => p.1 == "data")) = Option.none := hfData
      have hgErr : ((("errors", CVal.vlist es) :: ("meta", meta) :: ext).find?
          (fun p => p.1 == "errors")) = Option.some ("errors", CVal.vlist es) := rfl
      have hgMeta : ((("errors", CVal.vlist es) :: ("meta", meta) :: ext).find?
          (fun p => p.1 == "meta")) = Option.some ("meta", meta) := rfl
      have hgJs : ((("errors", CVal.vlist es) :: ("meta", meta) :: ext).find?
          (fun p => p.1 == "jsonapi")) = Option.none := hfJs
      have hgLinks : ((("errors", CVal.vlist es) :: ("meta", meta) :: ext).find?
          (fun p => p.1 == "links")) = Option.none := hfLinks
      have hgInc : ((("errors", CVal.vlist es) :: ("meta", meta) :: ext).find?
          (fun p => p.1 == "included")) = Option.none := hfInc
      have hflt : (("errors", CVal.vlist es) :: ("meta", meta) :: ext).filter
          (fun p => !fixedDocKeys.contains p.1) = ext := hfilter
      have hfd : cFromDict (("errors", CVal.vlist es) :: ("meta", meta) :: ext) =
          .ok (errorsDoc es meta CVal.vnone ext) := by
        simp only [cFromDict, hgData, hgErr, hgMeta, hgJs, hgLinks, hgInc, hflt,
          Option.map_none', Option.getD_none, Option.map_some', Option.getD_some]
        rw [hval2]
        rfl
      rw [roundTrip]
      rw [bindOkC htod]
      exact hfd
    · have hjN : isVNone js = false := isVNone_of_truthyC hj
      have htod : cToDict (errorsDoc es meta js ext) =
          .ok (("errors", CVal.vlist es) :: ("meta", meta) ::
            (ext ++ [("jsonapi", js)])) := by
        simp only [cToDict, errorsDoc, hval2, htde, htre, Bool.not_false,
          Bool.not_true, Bind.bind, Except.bind, pure, Except.pure, hm, hj,
          Bool.false_eq_true, if_false, eq_self_iff_true, if_true]
        rw [hfold]
        simp only [List.filter_append, List.filter_cons, List.filter_nil, hvn, hvl,
          hmN, hjN, Bool.not_true, Bool.not_false, Bool.false_eq_true, if_false,
          eq_self_iff_true, if_true, hef, List.nil_append,
          List.singleton_append, List.append_nil, List.cons_append]
      have hgData : ((("errors", CVal.vlist es) :: ("meta", meta) ::
          (ext ++ [("jsonapi", js)])).find?
          (fun p => p.1 == "data")) = Option.none := by
        show (ext ++ [("jsonapi", js)]).find? (fun p => p.1 == "data") = Option.none
        rw [List.find?_append, hfData]
        rfl
      have hgErr : ((("errors", CVal.vlist es) :: ("meta", meta) ::
          (ext ++ [("jsonapi", js)])).find?
          (fun p => p.1 == "errors")) = Option.some ("errors", CVal.vlist es) := rfl
      have hgMeta : ((("errors", CVal.vlist es) :: ("meta", meta) ::
          (ext ++ [("jsonapi", js)])).find?
          (fun p => p.1 == "meta")) = Option.some ("meta", meta) := rfl
      have hgJs : ((("errors", CVal.vlist es) :: ("meta", meta) ::
          (ext ++ [("jsonapi", js)])).find?
          (fun p => p.1 == "jsonapi")) = Option.some ("jsonapi", js) := by
        show (ext ++ [("jsonapi", js)]).find? (fun p => p.1 == "jsonapi") =
          Option.some ("jsonapi", js)
        rw [List.find?_append, hfJs]
        rfl
      have hgLinks : ((("errors", CVal.vlist es) :: ("meta", meta) ::
          (ext ++ [("jsonapi", js)])).find?
          (fun p => p.1 == "links")) = Option.none := by
        show (ext ++ [("jsonapi", js)]).find? (fun p => p.1 == "links") = Option.none
        rw [List.find?_append, hfLinks]
        rfl
      have hgInc : ((("errors", CVal.vlist es) :: ("meta", meta) ::
          (ext ++ [("jsonapi", js)])).find?
          (fun p => p.1 == "included")) = Option.none := by
        show (ext ++ [("jsonapi", js)]).find? (fun p => p.1 == "included") = Option.none
        rw [List.find?_append, hfInc]
        rfl
      have hflt : (("errors", CVal.vlist es) :: ("meta", meta) ::
          (ext ++ [("jsonapi", js)])).filter
          (fun p => !fixedDocKeys.contains p.1) = ext := by
        show (ext ++ [("jsonapi", js)]).filter (fun p => !fixedDocKeys.contains p.1) = ext
        rw [List.filter_append, hfilter]
        rw [show List.filter (fun p => !fixedDocKeys.contains p.1)
          [("jsonapi", js)] = [] from rfl, List.append_nil]
      have hfd : cFromDict (("errors", CVal.vlist es) :: ("meta", meta) ::
          (ext ++ [("jsonapi", js)])) = .ok (errorsDoc es meta js ext) := by
        simp only [cFromDict, hgData, hgErr, hgMeta, hgJs, hgLinks, hgInc, hflt,
          Option.map_none', Option.getD_none, Option.map_some', Option.getD_some]
        rw [hval2]
        rfl
      rw [roundTrip]
      rw [bindOkC htod]
      exact hfd

/-- C9 counterexample: the round trip is **not** the identity on every valid
document.  Serializing a document whose primary data is a
`JsonAPIResourceIdentifierObject` and deserializing the result yields a
document whose `data` member is a plain dictionary, not an identifier
object, so the reproduced document differs from the original. -/
theorem c9_counterexample :
    roundTrip specIdentDoc =
      .ok { data := CVal.vdict [("type", CVal.vstr "articles"), ("id", CVal.vstr "1")],
            errors := CVal.vnone, meta := CVal.vnone, jsonapi := CVal.vnone,
            links := CVal.vnone, included := CVal.vnone, ext := [] } ∧
    ({ data := CVal.vdict [("type", CVal.vstr "articles"), ("id", CVal.vstr "1")],
       errors := CVal.vnone, meta := CVal.vnone, jsonapi := CVal.vnone,
       links := CVal.vnone, included := CVal.vnone, ext := [] } : CDoc) ≠ specIdentDoc := by
  refine ⟨rfl, fun h => ?_⟩
  have hd := congrArg CDoc.data h
  simp only [specIdentDoc] at hd
  cases hd

/-- C9 witness: the amended round-trip theorem at a concrete errors
document carrying a meta value and an extension member. -/
theorem c9_roundtrip_amended_witness :
    roundTrip (errorsDoc [CVal.vstr "boom"] (CVal.vdict [("note", CVal.vstr "m")])
        CVal.vnone [("v", CVal.vint 1)]) =
      .ok (errorsDoc [CVal.vstr "boom"] (CVal.vdict [("note", CVal.vstr "m")])
        CVal.vnone [("v", CVal.vint 1)]) := by
  apply c9_roundtrip_amended
  · exact List.cons_ne_nil _ _
  · exact Or.inr rfl
  · exact Or.inl rfl
  · intro p hp
    simp only [List.mem_singleton] at hp
    subst hp
    rfl
  · intro p hp
    simp only [List.mem_singleton] at hp
    subst hp
    rfl
  · simp
  · intro h
    cases h with
    | inList x xs hx hix =>
      simp only [List.mem_singleton] at hx
      subst hx
      cases hix
  · intro h
    cases h with
    | inDict p kvs hp hpx =>
      simp only [List.mem_singleton] at hp
      subst hp
      cases hpx
  · intro h
    cases h
  · intro p hp
    simp only [List.mem_singleton] at hp
    subst hp
    intro h
    cases h

end Classes

end PyJAS
